import Mathlib

/-
  Verification development for the scratch-blocks procedure mutation
  synchronizer (src/blocks/sensing.ts and src/procedures.ts).

  The model is a shallow embedding of the procedure-block mutation code:
  `updateDisplay_` (disconnect / remove-all-inputs / createAllInputs_ /
  deleteShadows_), the three role-specific populate policies, the
  mutation (de)serialization functions, `getCallers` /
  `deleteProcedureDefCallback`, `mutateCallersAndPrototype`, and
  `updateArgumentReporterNames_`.
-/

namespace ScratchBlocks

/-- A child block attached (or attachable) to a value input.  `bid` models
JavaScript object identity (each `workspace.newBlock` call yields a fresh
block); `btype` is the Blockly block type string; `shadow` is the
`isShadow()` flag; `fieldVal` is the single relevant field value
(`NUM` / `TEXT` / `VALUE` depending on the block type). -/
structure SBlock where
  bid : Nat
  btype : String
  shadow : Bool
  fieldVal : String
deriving DecidableEq, Repr

/-- A shadow DOM element as built by `buildShadowDom_`: a `<shadow>` node of
the given type with one named field. -/
structure ShadowDom where
  stype : String
  fieldName : String
  fieldValue : String
deriving DecidableEq, Repr

/-- An input on a procedure block.  `dummy` models a dummy input carrying a
label field (or label editor); `value` models a value input with its name,
connected target block, connection shadow DOM and type check. -/
inductive Input where
  | dummy (label : String) : Input
  | value (name : String) (target : Option SBlock) (shadowDom : Option ShadowDom)
      (check : Option String) : Input
deriving DecidableEq, Repr

/-- The per-input record saved by `disconnectOldBlocks_`: the connection's
shadow DOM and the disconnected target block (either may be absent). -/
structure SaveInfo where
  shadowDom : Option ShadowDom
  block : Option SBlock
deriving DecidableEq, Repr

/-- The `ConnectionMap` of sensing.ts: a JavaScript object mapping input
names to `SaveInfo` or to an explicit `null` (entries are nulled when a
block is reclaimed or a shadow disposed).  Modelled as an association list
whose values are `Option SaveInfo` (`none` models the explicit `null`). -/
abbrev ConnectionMap := List (String × Option SaveInfo)

/-- Keys of a connection map, in insertion order. -/
def cmKeys (m : ConnectionMap) : List String := m.map (fun e => e.1)

/-- The JavaScript `id in connectionMap` test. -/
def cmHas (m : ConnectionMap) (k : String) : Bool := m.any (fun e => e.1 == k)

/-- The JavaScript `connectionMap[id]` read (absent key reads as `null`). -/
def cmGet (m : ConnectionMap) (k : String) : Option SaveInfo :=
  match m.find? (fun e => e.1 == k) with
  | some e => e.2
  | none => none

/-- The JavaScript `connectionMap[id] = v` assignment: overwrite when the
key exists, append otherwise. -/
def cmSet (m : ConnectionMap) (k : String) (v : Option SaveInfo) : ConnectionMap :=
  if cmHas m k then m.map (fun e => if e.1 == k then (e.1, v) else e)
  else m ++ [(k, v)]

/-- The three procedure block roles: `procedures_call`,
`procedures_prototype` and `procedures_declaration`. -/
inductive Role where
  | call : Role
  | proto : Role
  | decl : Role
deriving DecidableEq, Repr

/-- State of one procedure block (fields shared by the three roles; a call
block uses `generateShadows` and ignores `displayNames` /
`argumentDefaults`). -/
structure PBlock where
  role : Role
  procCode : String
  argumentIds : List String
  displayNames : List String
  argumentDefaults : List String
  warp : Bool
  generateShadows : Option Bool
  inputs : List Input
deriving DecidableEq, Repr

/- ---------- Signature splitting (createAllInputs_, first lines) ---------- -/

/-- Does the regex `[^\\]%[nbs]` match at the head of this character list?
This is the zero-width lookahead used by `procCode_.split(/(?=[^\\]%[nbs])/)`. -/
def isSplitPoint : List Char → Bool
  | c :: '%' :: t :: _ => c != '\\' && (t == 'n' || t == 'b' || t == 's')
  | _ => false

/-- The JavaScript `String.prototype.split` on the lookahead regex: a cut is
made before every position (other than position 0) where `isSplitPoint`
holds; `cur` accumulates the characters since the last cut. -/
def splitProcAux (cur : List Char) : List Char → List (List Char)
  | [] => [cur]
  | c :: rest =>
    if cur ≠ [] ∧ isSplitPoint (c :: rest) = true then cur :: splitProcAux [c] rest
    else splitProcAux (cur ++ [c]) rest

/-- Drop trailing whitespace. -/
def dropTrailingWS (l : List Char) : List Char :=
  (l.reverse.dropWhile Char.isWhitespace).reverse

/-- The JavaScript `String.prototype.trim` on a character list. -/
def trimChars (l : List Char) : List Char :=
  dropTrailingWS (l.dropWhile Char.isWhitespace)

/-- The components of a procCode: split on argument-marker boundaries, each
component trimmed (`.split(/(?=[^\\]%[nbs])/).map(c => c.trim())`). -/
def components (pc : String) : List (List Char) :=
  (splitProcAux [] pc.toList).map trimChars

/-- The JavaScript `labelText.replace(/\\%/, "%")`: unescape the first
occurrence of `\%` only (the regex has no global flag). -/
def replaceFirstEscPercent : List Char → List Char
  | [] => []
  | '\\' :: '%' :: rest => '%' :: rest
  | c :: rest => c :: replaceFirstEscPercent rest

/- ---------- Shadow construction ---------- -/

/-- The block created by `attachShadow_` for a non-Boolean argument type:
a `math_number` block prefilled "1" for `n`, a `text` block with empty text
otherwise (i.e. for `s`). -/
def attachShadowBlock (t : Char) (bid : Nat) : SBlock :=
  if t = 'n' then { bid := bid, btype := "math_number", shadow := true, fieldVal := "1" }
  else { bid := bid, btype := "text", shadow := true, fieldVal := "" }

/-- The DOM built by `buildShadowDom_`: `math_number`/`NUM`/"1" for `n`,
`text`/`TEXT`/"" otherwise. -/
def buildShadowDom (t : Char) : ShadowDom :=
  if t = 'n' then { stype := "math_number", fieldName := "NUM", fieldValue := "1" }
  else { stype := "text", fieldName := "TEXT", fieldValue := "" }

/-- The block created by `createArgumentReporter_`. -/
def freshReporter (t : Char) (displayName : String) (bid : Nat) : SBlock :=
  if t = 'n' ∨ t = 's' then
    { bid := bid, btype := "argument_reporter_string_number", shadow := true,
      fieldVal := displayName }
  else
    { bid := bid, btype := "argument_reporter_boolean", shadow := true,
      fieldVal := displayName }

/-- The block created by `createArgumentEditor_`. -/
def freshEditor (t : Char) (displayName : String) (bid : Nat) : SBlock :=
  if t = 'n' ∨ t = 's' then
    { bid := bid, btype := "argument_editor_string_number", shadow := true,
      fieldVal := displayName }
  else
    { bid := bid, btype := "argument_editor_boolean", shadow := true,
      fieldVal := displayName }

/-- `checkOldTypeMatches_` from sensing.ts: note that it tests for argument
REPORTER block types in both the prototype and the declaration policy. -/
def checkOldTypeMatches (oldBlock : Option SBlock) (t : Char) : Bool :=
  match oldBlock with
  | none => false
  | some b =>
    if (t = 'n' ∨ t = 's') ∧ b.btype = "argument_reporter_string_number" then true
    else if t = 'b' ∧ b.btype = "argument_reporter_boolean" then true
    else false

/- ---------- Populate policies ---------- -/

/-- Result of a populate policy: the block connected to the new input, the
shadow DOM set on its connection, the updated connection map, and the next
fresh block id. -/
structure PopResult where
  target : Option SBlock
  shadowDom : Option ShadowDom
  cm : ConnectionMap
  nextId : Nat
deriving Repr

/-- The `if (connectionMap && id in connectionMap)` read of the saved old
block and old shadow DOM at the start of each populate function. -/
def lookupOld (cm : ConnectionMap) (id : String) : Option SBlock × Option ShadowDom :=
  if cmHas cm id then
    match cmGet cm id with
    | some si => (si.block, si.shadowDom)
    | none => (none, none)
  else (none, none)

/-- `populateArgumentOnCaller_`: reattach the old block (nulling its map
entry) and restore/rebuild its shadow DOM when shadows are generated and
the type is not Boolean; otherwise synthesize a default shadow block when
`generateShadows_` is truthy (only for non-Boolean types). -/
def populateOnCaller (gs : Option Bool) (t : Char) (cm : ConnectionMap) (id : String)
    (nextId : Nat) : PopResult :=
  let old := lookupOld cm id
  match old.1 with
  | some ob =>
    { target := some ob,
      shadowDom :=
        if t ≠ 'b' ∧ gs = some true then some (old.2.getD (buildShadowDom t)) else none,
      cm := cmSet cm id none,
      nextId := nextId }
  | none =>
    if gs = some true then
      if t = 'n' ∨ t = 's' then
        { target := some (attachShadowBlock t nextId), shadowDom := none, cm := cm,
          nextId := nextId + 1 }
      else { target := none, shadowDom := none, cm := cm, nextId := nextId }
    else { target := none, shadowDom := none, cm := cm, nextId := nextId }

/-- `populateArgumentOnPrototype_`: reuse the old block when it is an
argument reporter of the matching kind (updating its VALUE field to the new
display name), else create a fresh argument reporter. -/
def populateOnPrototype (t : Char) (cm : ConnectionMap) (id : String) (index : Nat)
    (names : List String) (nextId : Nat) : PopResult :=
  let old := lookupOld cm id
  let typeMatches := checkOldTypeMatches old.1 t
  let displayName := names.getD index ""
  match old.1 with
  | some ob =>
    if typeMatches then
      { target := some { ob with fieldVal := displayName }, shadowDom := none,
        cm := cmSet cm id none, nextId := nextId }
    else
      { target := some (freshReporter t displayName nextId), shadowDom := none, cm := cm,
        nextId := nextId + 1 }
  | none =>
    { target := some (freshReporter t displayName nextId), shadowDom := none, cm := cm,
      nextId := nextId + 1 }

/-- `populateArgumentOnDeclaration_`: the reuse test calls
`checkOldTypeMatches_`, which tests for argument REPORTER types (the TODO
in the source notes it therefore always returns false for argument
editors); on reuse the editor's TEXT field would be set to the display
name, otherwise a fresh argument editor is created. -/
def populateOnDeclaration (t : Char) (cm : ConnectionMap) (id : String) (index : Nat)
    (names : List String) (nextId : Nat) : PopResult :=
  let old := lookupOld cm id
  let typeMatches := checkOldTypeMatches old.1 t
  let displayName := names.getD index ""
  match old.1 with
  | some ob =>
    if typeMatches then
      { target := some { ob with fieldVal := displayName }, shadowDom := none,
        cm := cmSet cm id none, nextId := nextId }
    else
      { target := some (freshEditor t displayName nextId), shadowDom := none, cm := cm,
        nextId := nextId + 1 }
  | none =>
    { target := some (freshEditor t displayName nextId), shadowDom := none, cm := cm,
      nextId := nextId + 1 }

/-- Dispatch of `populateArgument_` by block role. -/
def populateArgument (role : Role) (gs : Option Bool) (t : Char) (cm : ConnectionMap)
    (id : String) (index : Nat) (names : List String) (nextId : Nat) : PopResult :=
  match role with
  | .call => populateOnCaller gs t cm id nextId
  | .proto => populateOnPrototype t cm id index names nextId
  | .decl => populateOnDeclaration t cm id index names nextId

/-- `addProcedureLabel_`: calls and prototypes append a dummy input with a
label field (even for empty text, `addLabelField_`); declarations append a
label editor only for non-empty text (`addLabelEditor_`). -/
def labelInputs (role : Role) (text : List Char) : List Input :=
  match role with
  | .decl => if text = [] then [] else [Input.dummy (String.mk text)]
  | _ => [Input.dummy (String.mk text)]

/- ---------- createAllInputs_ ---------- -/

/-- Accumulator state while `createAllInputs_` walks the procCode
components: inputs appended so far, the connection map, the fresh-block-id
supply and `argumentCount`. -/
structure BuildState where
  inputs : List Input
  cm : ConnectionMap
  nextId : Nat
  argCount : Nat
deriving Repr

/-- The error message thrown by `createAllInputs_` for an invalid argument
type letter. -/
def invalidTypeMsg (s : String) : String :=
  "Found an custom procedure with an invalid type: " ++ s

/-- Process one argument component (a component starting with `%` and a
valid type letter `t`): append a value input named by the current argument
id, populate it, bump the argument count, then append the trailing label. -/
def argStep (role : Role) (gs : Option Bool) (ids names : List String) (st : BuildState)
    (t : Char) (comp : List Char) : BuildState :=
  let labelText := trimChars (comp.drop 2)
  let id := ids.getD st.argCount ""
  let pop := populateArgument role gs t st.cm id st.argCount names st.nextId
  { inputs := st.inputs
      ++ [Input.value id pop.target pop.shadowDom (if t = 'b' then some "Boolean" else none)]
      ++ labelInputs role (replaceFirstEscPercent labelText),
    cm := pop.cm,
    nextId := pop.nextId,
    argCount := st.argCount + 1 }

/-- The main loop of `createAllInputs_` over the trimmed components.  A
component starting with `%` whose second character is not `n`, `b` or `s`
throws (returning the state built so far together with the error, since the
JavaScript exception leaves the partially rebuilt input list in place). -/
def buildLoop (role : Role) (gs : Option Bool) (ids names : List String) :
    List (List Char) → BuildState → BuildState × Option String
  | [], st => (st, none)
  | comp :: rest, st =>
    if comp.head? = some '%' then
      match comp[1]? with
      | none => (st, some (invalidTypeMsg ""))
      | some t =>
        if t = 'n' ∨ t = 'b' ∨ t = 's' then
          buildLoop role gs ids names rest (argStep role gs ids names st t comp)
        else (st, some (invalidTypeMsg (String.mk [t])))
    else
      buildLoop role gs ids names rest
        { st with
          inputs := st.inputs ++ labelInputs role (replaceFirstEscPercent (trimChars comp)) }

/-- `createAllInputs_`: split the procCode, then walk the components
starting from an empty input list (the caller, `updateDisplay_`, has just
removed all inputs). -/
def createAllInputs (role : Role) (gs : Option Bool) (pc : String) (ids names : List String)
    (cm : ConnectionMap) (nextId : Nat) : BuildState × Option String :=
  buildLoop role gs ids names (components pc)
    { inputs := [], cm := cm, nextId := nextId, argCount := 0 }

/- ---------- disconnectOldBlocks_ / deleteShadows_ / updateDisplay_ ---------- -/

/-- `disconnectOldBlocks_`: record, for every value input, its connection's
shadow DOM and target block under the input's name (dummy inputs have no
connection and are skipped). -/
def disconnectOldBlocks (inputs : List Input) : ConnectionMap :=
  inputs.foldl
    (fun m i =>
      match i with
      | .dummy _ => m
      | .value nm tgt sd _ => cmSet m nm (some { shadowDom := sd, block := tgt }))
    []

/-- `deleteShadows_`: dispose every block still held in the map that is a
shadow, nulling its entry; return the updated map and the disposed blocks
in map order. -/
def deleteShadows (cm : ConnectionMap) : ConnectionMap × List SBlock :=
  (cm.map (fun e =>
      match e.2 with
      | some si =>
        match si.block with
        | some b => if b.shadow then (e.1, none) else e
        | none => e
      | none => e),
   cm.filterMap (fun e =>
      match e.2 with
      | some si =>
        match si.block with
        | some b => if b.shadow then some b else none
        | none => none
      | none => none))

/-- Result of `updateDisplay_`: the updated block, the blocks disposed by
`deleteShadows_`, the error thrown by `createAllInputs_` (if any; in that
case `deleteShadows_` never runs and the partially rebuilt input list is
left on the block), and the next fresh block id. -/
structure UDResult where
  blk : PBlock
  disposed : List SBlock
  error : Option String
  nextId : Nat
deriving Repr

/-- `updateDisplay_`: disconnect old blocks, remove all inputs, rebuild
from the procCode, then delete unreclaimed shadows. -/
def updateDisplay (b : PBlock) (nextId : Nat) : UDResult :=
  let cm := disconnectOldBlocks b.inputs
  let r := createAllInputs b.role b.generateShadows b.procCode b.argumentIds b.displayNames
      cm nextId
  match r.2 with
  | some e =>
    { blk := { b with inputs := r.1.inputs }, disposed := [], error := some e,
      nextId := r.1.nextId }
  | none =>
    { blk := { b with inputs := r.1.inputs }, disposed := (deleteShadows r.1.cm).2,
      error := none, nextId := r.1.nextId }

/- ---------- Serialization and deserialization ---------- -/

/-- A `<mutation>` element, modelled at the attribute level: string-list
attributes hold the value that `JSON.parse` recovers from the attribute
text (`JSON.parse` and `JSON.stringify` are mutually inverse on string
lists and booleans, and `Blockly.Xml.domToText` is deterministic and
injective on these elements, so equality of two `MutationElement`s models
byte-equality of their serialized text).  `none` models an absent
attribute. -/
structure MutationElement where
  proccode : String
  argumentids : List String
  argumentnames : Option (List String)
  argumentdefaults : Option (List String)
  warp : Bool
  generateshadows : Option Bool
deriving DecidableEq, Repr

/-- `callerMutationToDom`: writes proccode, argumentids and warp only (no
generateshadows, argumentnames or argumentdefaults attributes). -/
def callerMutationToDom (b : PBlock) : MutationElement :=
  { proccode := b.procCode, argumentids := b.argumentIds, argumentnames := none,
    argumentdefaults := none, warp := b.warp, generateshadows := none }

/-- `callerDomToMutation`: read proccode, generateshadows, argumentids and
warp from the element, then run `updateDisplay_`. -/
def callerDomToMutation (b : PBlock) (el : MutationElement) (nextId : Nat) : UDResult :=
  updateDisplay
    { b with
      procCode := el.proccode,
      generateShadows := el.generateshadows,
      argumentIds := el.argumentids,
      warp := el.warp } nextId

/-- `definitionMutationToDom` (prototype and declaration blocks): writes
generateshadows="true" only when `opt_generateShadows` is passed as true,
then proccode, argumentids, argumentnames, argumentdefaults and warp. -/
def definitionMutationToDom (b : PBlock) (optGenerateShadows : Bool) : MutationElement :=
  { proccode := b.procCode, argumentids := b.argumentIds,
    argumentnames := some b.displayNames, argumentdefaults := some b.argumentDefaults,
    warp := b.warp, generateshadows := if optGenerateShadows then some true else none }

/-- `definitionDomToMutation` without the trailing argument-reporter rename
(which only the prototype block binds; it is modelled separately by
`updateArgumentReporterNames` since it needs the surrounding definition
stack): set the fields from the element, then run `updateDisplay_`. -/
def definitionDomToMutation (b : PBlock) (el : MutationElement) (nextId : Nat) : UDResult :=
  updateDisplay
    { b with
      procCode := el.proccode,
      warp := el.warp,
      argumentIds := el.argumentids,
      displayNames := el.argumentnames.getD [],
      argumentDefaults := el.argumentdefaults.getD [] }
    nextId

/-- Role dispatch of `mutationToDom` as bound in the three block `init`
functions (no argument, so a definition block serializes without the
generateshadows flag). -/
def mutationToDomM (b : PBlock) : MutationElement :=
  match b.role with
  | .call => callerMutationToDom b
  | _ => definitionMutationToDom b false

/-- Role dispatch of `domToMutation`. -/
def domToMutationM (b : PBlock) (el : MutationElement) (nextId : Nat) : UDResult :=
  match b.role with
  | .call => callerDomToMutation b el nextId
  | _ => definitionDomToMutation b el nextId

/- ---------- procedures.ts: getCallers and the deletion guard ---------- -/

/-- A block as seen by the workspace-level functions of procedures.ts: its
id, its block type, and its procCode (meaningful for procedure blocks). -/
structure WBlock where
  idStr : String
  btype : String
  procCode : String
deriving DecidableEq, Repr

/-- One top-level stack: `workspace.getTopBlocks()` returns `root`, and
`root.getDescendants(false)` returns the root followed by `rest`. -/
structure Stack where
  root : WBlock
  rest : List WBlock
deriving DecidableEq, Repr

/-- `getDescendants(false)` of a stack root: the root itself and every
descendant. -/
def Stack.descendants (s : Stack) : List WBlock := s.root :: s.rest

/-- A workspace is its list of top-level stacks. -/
abbrev Workspace := List Stack

/-- `isProcedureBlock` from procedures.ts. -/
def isProcedureBlock (b : WBlock) : Bool :=
  b.btype == "procedures_call" || b.btype == "procedures_declaration" ||
    b.btype == "procedures_prototype"

/-- `getCallers`: over all top-level stacks, skipping the stack rooted at
`definitionRootId` unless recursion is allowed, collect the descendant
blocks that are procedure call blocks with the given procCode. -/
def getCallers (name : String) (ws : Workspace) (definitionRootId : String)
    (allowRecursive : Bool) : List WBlock :=
  ws.flatMap fun st =>
    if st.root.idStr = definitionRootId ∧ allowRecursive = false then []
    else
      st.descendants.filter fun d =>
        isProcedureBlock d && d.btype == "procedures_call" && d.procCode == name

/-- `deleteProcedureDefCallback`: search for callers with recursion
excluded; a non-empty result returns false with the workspace unchanged,
otherwise the definition root's stack is disposed (`checkAndDelete` on a
top-level block removes it and its descendants) and true is returned. -/
def deleteProcedureDefCallback (procCode : String) (definitionRootId : String)
    (ws : Workspace) : Bool × Workspace :=
  let callers := getCallers procCode ws definitionRootId false
  if callers.length > 0 then (false, ws)
  else (true, ws.filter fun st => st.root.idStr ≠ definitionRootId)

/- ---------- procedures.ts: mutateCallersAndPrototype ---------- -/

/-- The per-caller loop of `mutateCallersAndPrototype`, applied to the list
of affected blocks (the call sites found by `getCallers` with recursion
allowed, with the prototype block pushed at the end).  For each block the
old mutation is serialized, the new mutation applied, the new mutation
serialized, and a change notification recorded exactly when the two
serializations differ.  A `createAllInputs_` exception propagates out of
the loop: the throwing block keeps its newly set fields but fires no
notification, and the remaining blocks are not processed. -/
def mutateCallersAndPrototype (blocks : List PBlock) (mutEl : MutationElement)
    (nextId : Nat) : List (PBlock × Bool) × Option String × Nat :=
  match blocks with
  | [] => ([], none, nextId)
  | b :: rest =>
    let old := mutationToDomM b
    let r := domToMutationM b mutEl nextId
    match r.error with
    | some e => ((r.blk, false) :: rest.map (fun x => (x, false)), some e, r.nextId)
    | none =>
      let fired := decide (old ≠ mutationToDomM r.blk)
      let tail := mutateCallersAndPrototype rest mutEl r.nextId
      ((r.blk, fired) :: tail.1, tail.2.1, tail.2.2)

/- ---------- updateArgumentReporterNames_ ---------- -/

/-- Argument reporter block types. -/
def isArgReporterType (t : String) : Bool :=
  t == "argument_reporter_string_number" || t == "argument_reporter_boolean"

/-- The blocks collected by `updateArgumentReporterNames_` from the
definition's descendants: non-shadow argument reporters. -/
def candidateReporter (b : SBlock) : Bool :=
  isArgReporterType b.btype && !b.shadow

/-- The loop header `for (let i = 0, id; (id = this.argumentIds_[i]); i++)`
stops at the first falsy id, i.e. at the first empty string. -/
def takeTruthy : List String → List String
  | [] => []
  | s :: r => if s = "" then [] else s :: takeTruthy r

/-- The JavaScript `Array.prototype.indexOf`: index of the first occurrence,
`none` for the -1 result. -/
def jsIndexOf : List String → String → Option Nat
  | [], _ => none
  | x :: r, a => if x = a then some 0 else (jsIndexOf r a).map (fun n => n + 1)

/-- The name-change list built by `updateArgumentReporterNames_`: for each
current argument id (up to the first falsy one) that already existed
(`prevArgIds.indexOf(id)` not -1) and whose display name changed, the pair
(previous name, new name).  When `prevIndex` is out of range of
`prevDisplayNames`, the JavaScript `prevName` is `undefined`: the pushed
change matches no block (no field equals `undefined`), so it is modelled
as no change. -/
def buildNameChanges (argIds displayNames prevArgIds prevDisplayNames : List String) :
    List (String × String) :=
  let ids := takeTruthy argIds
  (List.range ids.length).filterMap fun i =>
    let id := ids.getD i ""
    match jsIndexOf prevArgIds id with
    | some prevIndex =>
      match prevDisplayNames[prevIndex]? with
      | some prevName =>
        if prevName ≠ displayNames.getD i "" then some (prevName, displayNames.getD i "")
        else none
      | none => none
    | none => none

/-- The final VALUE field of one reporter after all the name changes are
applied in order.  The source filters each change's block list against the
reporters' PRE-edit field values (all filters run before any update), then
applies the updates in list order; for one reporter this is exactly a
last-match-wins fold keyed on the reporter's original value. -/
def applyRename (changes : List (String × String)) (orig : String) : String :=
  changes.foldl (fun cur pr => if orig = pr.1 then pr.2 else cur) orig

/-- `updateArgumentReporterNames_` acting on the definition block's
descendant blocks: every non-shadow argument reporter gets the renames
applied against its pre-edit VALUE field; every other block is untouched. -/
def updateArgumentReporterNames (argIds displayNames prevArgIds prevDisplayNames : List String)
    (descendants : List SBlock) : List SBlock :=
  let changes := buildNameChanges argIds displayNames prevArgIds prevDisplayNames
  descendants.map fun b =>
    if candidateReporter b then { b with fieldVal := applyRename changes b.fieldVal } else b

/-- The whole-workspace view of the rename pass: the source iterates only
`definitionBlock.getDescendants(false)`, so blocks outside the definition's
own stack are not visited at all. -/
def propagateRenames (argIds displayNames prevArgIds prevDisplayNames : List String)
    (defDescendants others : List SBlock) : List SBlock × List SBlock :=
  (updateArgumentReporterNames argIds displayNames prevArgIds prevDisplayNames defDescendants,
   others)

/-- Spec-side rename function (follows the spec text, for comparison with
the source-derived `applyRename`/`buildNameChanges`): a reporter label equal
to the old display name of slot i whose display name changed is relabelled
to that slot's new display name; all other labels are untouched. -/
def renameSpec (prevNames names : List String) (v : String) : String :=
  match (List.range prevNames.length).find? (fun i =>
      (prevNames.getD i "" == v) && !(names.getD i "" == prevNames.getD i "")) with
  | some i => names.getD i ""
  | none => v

/- ---------- Derived notions used by the theorems ---------- -/

/-- The value inputs of an input list, as (name, target) pairs in order. -/
def valueInputs : List Input → List (String × Option SBlock)
  | [] => []
  | .dummy _ :: r => valueInputs r
  | .value nm tgt _ _ :: r => (nm, tgt) :: valueInputs r

/-- The names of the value inputs, in order. -/
def valueNames (inputs : List Input) : List String :=
  (valueInputs inputs).map (fun e => e.1)

/-- Validity of one trimmed component: a component starting with `%` must
have `n`, `b` or `s` as its second character. -/
def compValid (comp : List Char) : Bool :=
  match comp with
  | '%' :: t :: _ => t == 'n' || t == 'b' || t == 's'
  | ['%'] => false
  | _ => true

/-- A procCode parses without error iff all its components are valid. -/
def procCodeValid (pc : String) : Bool := (components pc).all compValid

/-- The argument type letter of one component, when it is a valid argument
component. -/
def argTypeOf? (comp : List Char) : Option Char :=
  match comp with
  | '%' :: t :: _ => if t == 'n' || t == 'b' || t == 's' then some t else none
  | _ => none

/-- The argument type letters of a component list, in order. -/
def argTypesOf (comps : List (List Char)) : List Char :=
  comps.filterMap argTypeOf?

/-- The argument type letters of a procCode. -/
def procArgTypes (pc : String) : List Char := argTypesOf (components pc)

/-- The number of argument markers in a procCode. -/
def procArgCount (pc : String) : Nat := (procArgTypes pc).length

/-- Shape of the default shadow synthesized for an empty slot of the given
type on a call block with shadow generation on: nothing for Boolean, a
`math_number` prefilled "1" for `n`, an empty `text` block for `s`. -/
def synthShape (t : Char) (tgt : Option SBlock) : Prop :=
  if t = 'b' then tgt = none
  else if t = 'n' then
    ∃ m, tgt = some { bid := m, btype := "math_number", shadow := true, fieldVal := "1" }
  else ∃ m, tgt = some { bid := m, btype := "text", shadow := true, fieldVal := "" }

/-- The connection map built by `disconnectOldBlocks_`, entry by entry (used
to characterize the fold under distinct input names). -/
def valueEntries : List Input → ConnectionMap
  | [] => []
  | .dummy _ :: r => valueEntries r
  | .value nm tgt sd _ :: r =>
    (nm, some { shadowDom := sd, block := tgt }) :: valueEntries r

/-- Invariant maintained by the `createAllInputs_` loop on a call block
after `k` argument slots have been processed: the argument counter is `k`;
the value inputs built so far are named by the first `k` new argument ids
in order; a slot whose id had a saved old block got that block reattached;
a slot whose id had no saved old block got the synthesized default shadow
shape (with shadow generation on); the connection map keeps exactly the
keys of the initial map; entries of unprocessed ids are untouched; entries
of processed ids no longer hold a block. -/
structure CallInv (gs : Option Bool) (ids : List String) (cm0 : ConnectionMap)
    (typesFull : List Char) (k : Nat) (st : BuildState) : Prop where
  argc : st.argCount = k
  names_ok : (valueInputs st.inputs).map Prod.fst = ids.take k
  targets_old : ∀ i c, i < k → (lookupOld cm0 (ids.getD i "")).1 = some c →
    ((valueInputs st.inputs).getD i ("", none)).2 = some c
  targets_none : ∀ i, i < k → (lookupOld cm0 (ids.getD i "")).1 = none →
    gs = some true →
    synthShape (typesFull.getD i ' ') (((valueInputs st.inputs).getD i ("", none)).2)
  keys_eq : cmKeys st.cm = cmKeys cm0
  get_out : ∀ id, id ∉ ids.take k → cmGet st.cm id = cmGet cm0 id
  consumed : ∀ id, id ∈ ids.take k → (cmGet st.cm id).bind SaveInfo.block = none

/-- Whether a block's serialized mutation changes when the fields of the
given mutation element are applied to it: for a caller the serialization
covers proccode, argument ids and warp; for a prototype or declaration it
additionally covers display names and argument defaults. -/
def mutationChanged (b : PBlock) (el : MutationElement) : Bool :=
  match b.role with
  | Role.call =>
    !(b.procCode == el.proccode && b.argumentIds == el.argumentids && b.warp == el.warp)
  | _ =>
    !(b.procCode == el.proccode && b.argumentIds == el.argumentids &&
      b.displayNames == el.argumentnames.getD [] &&
      b.argumentDefaults == el.argumentdefaults.getD [] && b.warp == el.warp)

/- ---------- Basic lemmas about the model ---------- -/

theorem valueInputs_append (xs ys : List Input) :
    valueInputs (xs ++ ys) = valueInputs xs ++ valueInputs ys := by
  induction xs with
  | nil => rfl
  | cons x r ih => cases x <;> simp [valueInputs, ih]

theorem valueInputs_labelInputs (role : Role) (t : List Char) :
    valueInputs (labelInputs role t) = [] := by
  cases role with
  | call => rfl
  | proto => rfl
  | decl =>
    simp only [labelInputs]
    split <;> rfl

theorem cmHas_eq_keys (m : ConnectionMap) (k : String) :
    cmHas m k = (cmKeys m).any (fun x => x == k) := by
  unfold cmHas cmKeys
  induction m with
  | nil => rfl
  | cons e r ih => simp only [List.any_cons, List.map_cons, ih]

theorem cmHas_iff (m : ConnectionMap) (k : String) :
    cmHas m k = true ↔ k ∈ cmKeys m := by
  rw [cmHas_eq_keys, List.any_eq_true]
  constructor
  · rintro ⟨x, hx, hxe⟩
    exact (beq_iff_eq.1 hxe) ▸ hx
  · intro h
    exact ⟨k, h, by simp⟩

theorem cmHas_congr (m m' : ConnectionMap) (h : cmKeys m = cmKeys m') (k : String) :
    cmHas m k = cmHas m' k := by
  rw [cmHas_eq_keys, cmHas_eq_keys, h]

theorem cmGet_eq_none_of_not_has (m : ConnectionMap) (k : String)
    (h : cmHas m k = false) : cmGet m k = none := by
  unfold cmGet
  cases hf : m.find? (fun e => e.1 == k) with
  | none => rfl
  | some e =>
    have h1 := List.find?_some hf
    have h2 := List.mem_of_find?_eq_some hf
    have hh : cmHas m k = true := by
      unfold cmHas
      rw [List.any_eq_true]
      exact ⟨e, h2, h1⟩
    rw [hh] at h
    cases h

/-- Key preservation of the overwrite branch of `cmSet`. -/
theorem cmSet_map_key (k : String) (v : Option SaveInfo)
    (e : String × Option SaveInfo) :
    (if (e.1 == k) = true then (e.1, v) else e).1 = e.1 := by
  by_cases hek : (e.1 == k) = true
  · rw [if_pos hek]
  · rw [if_neg hek]

theorem cmKeys_cmSet (m : ConnectionMap) (k : String) (v : Option SaveInfo)
    (h : cmHas m k = true) : cmKeys (cmSet m k v) = cmKeys m := by
  unfold cmSet
  rw [if_pos h]
  unfold cmKeys
  rw [List.map_map]
  apply List.map_congr_left
  intro e _
  exact cmSet_map_key k v e

/-- `find?` by key commutes with the overwrite map of `cmSet`. -/
theorem find?_cmSet_map (m : ConnectionMap) (k id : String) (v : Option SaveInfo) :
    (m.map (fun e => if (e.1 == k) = true then (e.1, v) else e)).find?
        (fun e => e.1 == id) =
      (m.find? (fun e => e.1 == id)).map
        (fun e => if (e.1 == k) = true then (e.1, v) else e) := by
  have hfun : ((fun (e : String × Option SaveInfo) => e.1 == id) ∘
      (fun e => if (e.1 == k) = true then (e.1, v) else e)) =
      (fun (e : String × Option SaveInfo) => e.1 == id) := by
    funext e
    simp only [Function.comp]
    rw [cmSet_map_key k v e]
  rw [List.find?_map, hfun]

theorem cmGet_cmSet_self (m : ConnectionMap) (k : String) (v : Option SaveInfo)
    (h : cmHas m k = true) : cmGet (cmSet m k v) k = v := by
  unfold cmSet
  rw [if_pos h]
  unfold cmGet
  rw [find?_cmSet_map]
  cases hf : m.find? (fun e => e.1 == k) with
  | none =>
    have hsome : (m.find? (fun e => e.1 == k)).isSome = true := by
      rw [List.find?_isSome]
      unfold cmHas at h
      exact List.any_eq_true.1 h
    rw [hf] at hsome
    cases hsome
  | some e =>
    have h1 := List.find?_some hf
    show (if (e.1 == k) = true then (e.1, v) else e).2 = v
    rw [if_pos h1]

theorem cmGet_cmSet_ne (m : ConnectionMap) (k id : String) (v : Option SaveInfo)
    (h : id ≠ k) : cmGet (cmSet m k v) id = cmGet m id := by
  unfold cmSet
  by_cases hh : cmHas m k = true
  · rw [if_pos hh]
    unfold cmGet
    rw [find?_cmSet_map]
    cases hf : m.find? (fun e => e.1 == id) with
    | none => rfl
    | some e =>
      have h1 := List.find?_some hf
      have he1 : e.1 = id := beq_iff_eq.1 h1
      show (if (e.1 == k) = true then (e.1, v) else e).2 = e.2
      rw [if_neg (by rw [he1]; simp only [beq_iff_eq]; exact h)]
  · rw [if_neg hh]
    unfold cmGet
    rw [List.find?_append]
    have hn : List.find? (fun (e : String × Option SaveInfo) => e.1 == id) [(k, v)] = none := by
      rw [List.find?_cons_of_neg _ (by simp only [beq_iff_eq]; exact fun hc => h hc.symm)]
      rfl
    rw [hn, Option.or_none]

theorem cmKeys_valueEntries (inputs : List Input) :
    cmKeys (valueEntries inputs) = valueNames inputs := by
  induction inputs with
  | nil => rfl
  | cons i r ih => cases i <;> simp [valueEntries, valueNames, valueInputs, cmKeys] at ih ⊢ <;>
      exact ih

theorem disconnect_go (inputs : List Input) :
    ∀ m : ConnectionMap, (cmKeys m ++ valueNames inputs).Nodup →
      inputs.foldl
        (fun m i =>
          match i with
          | .dummy _ => m
          | .value nm tgt sd _ => cmSet m nm (some { shadowDom := sd, block := tgt }))
        m = m ++ valueEntries inputs := by
  induction inputs with
  | nil => intro m _; simp [valueEntries]
  | cons i r ih =>
    intro m hnd
    cases i with
    | dummy l =>
      simp only [List.foldl_cons]
      have : valueNames (Input.dummy l :: r) = valueNames r := by
        simp [valueNames, valueInputs]
      rw [this] at hnd
      exact ih m hnd
    | value nm tgt sd chk =>
      simp only [List.foldl_cons]
      have hnames : valueNames (Input.value nm tgt sd chk :: r) = nm :: valueNames r := by
        simp [valueNames, valueInputs]
      rw [hnames] at hnd
      have hnotin : nm ∉ cmKeys m := by
        have hd := List.nodup_append.1 hnd
        intro hmem
        exact hd.2.2 hmem (by simp)
      have hhas : cmHas m nm = false := by
        rw [← Bool.not_eq_true, cmHas_iff]
        exact hnotin
      have hset : cmSet m nm (some { shadowDom := sd, block := tgt }) =
          m ++ [(nm, some { shadowDom := sd, block := tgt })] := by
        unfold cmSet
        rw [if_neg (by simp [hhas])]
      rw [hset]
      have hnd' : (cmKeys (m ++ [(nm, some { shadowDom := sd, block := tgt })]) ++
          valueNames r).Nodup := by
        have : cmKeys (m ++ [(nm, some { shadowDom := sd, block := tgt })]) =
            cmKeys m ++ [nm] := by simp [cmKeys]
        rw [this, List.append_assoc]
        simpa using hnd
      rw [ih _ hnd']
      simp [valueEntries]

theorem disconnect_eq_valueEntries (inputs : List Input)
    (hnd : (valueNames inputs).Nodup) :
    disconnectOldBlocks inputs = valueEntries inputs := by
  have := disconnect_go inputs [] (by simpa [cmKeys] using hnd)
  simpa [disconnectOldBlocks] using this

theorem cmGet_valueEntries_of_mem (inputs : List Input)
    (hnd : (valueNames inputs).Nodup) (nm : String) (tgt : Option SBlock)
    (hm : (nm, tgt) ∈ valueInputs inputs) :
    ∃ sd, cmGet (valueEntries inputs) nm = some { shadowDom := sd, block := tgt } := by
  induction inputs with
  | nil => simp [valueInputs] at hm
  | cons i r ih =>
    cases i with
    | dummy l =>
      have h1 : valueNames (Input.dummy l :: r) = valueNames r := by
        simp [valueNames, valueInputs]
      rw [h1] at hnd
      exact ih hnd (by simpa [valueInputs] using hm)
    | value nm' tgt' sd' chk' =>
      have h1 : valueNames (Input.value nm' tgt' sd' chk' :: r) = nm' :: valueNames r := by
        simp [valueNames, valueInputs]
      rw [h1] at hnd
      simp only [valueInputs, List.mem_cons] at hm
      rcases hm with hm | hm
      · rw [Prod.mk.injEq] at hm
        refine ⟨sd', ?_⟩
        show cmGet ((nm', some { shadowDom := sd', block := tgt' }) :: valueEntries r) nm =
          some { shadowDom := sd', block := tgt }
        unfold cmGet
        rw [List.find?_cons_of_pos _ (by simp only [beq_iff_eq]; exact hm.1.symm)]
        rw [hm.2]
      · have hne : nm ≠ nm' := by
          intro hc
          have hmem : nm ∈ valueNames r := by
            simp only [valueNames, List.mem_map]
            exact ⟨(nm, tgt), hm, rfl⟩
          exact (List.nodup_cons.1 hnd).1 (hc ▸ hmem)
        obtain ⟨sd, hsd⟩ := ih (List.nodup_cons.1 hnd).2 hm
        refine ⟨sd, ?_⟩
        show cmGet ((nm', some { shadowDom := sd', block := tgt' }) :: valueEntries r) nm =
          some { shadowDom := sd, block := tgt }
        unfold cmGet
        rw [List.find?_cons_of_neg _
          (by simp only [beq_iff_eq]; exact fun hc => hne hc.symm)]
        exact hsd

theorem not_mem_valueNames_of_no_entry (inputs : List Input) (nm : String)
    (h : ∀ tgt, (nm, tgt) ∉ valueInputs inputs) : nm ∉ valueNames inputs := by
  intro hmem
  simp only [valueNames, List.mem_map] at hmem
  obtain ⟨e, he, hek⟩ := hmem
  apply h e.2
  have hpe : (nm, e.2) = e := by
    rw [← hek]
  rw [hpe]
  exact he

theorem lookupOld_of_keys_get (m m' : ConnectionMap) (id : String)
    (hk : cmKeys m = cmKeys m') (hg : cmGet m id = cmGet m' id) :
    lookupOld m id = lookupOld m' id := by
  unfold lookupOld
  rw [cmHas_congr m m' hk, hg]

theorem lookupOld_block_none (m : ConnectionMap) (id : String)
    (h : (lookupOld m id).1 = none) : (cmGet m id).bind SaveInfo.block = none := by
  unfold lookupOld at h
  by_cases hh : cmHas m id = true
  · rw [if_pos hh] at h
    cases hg : cmGet m id with
    | none => simp
    | some si =>
      rw [hg] at h
      simp at h
      simp [hg, h]
  · rw [cmGet_eq_none_of_not_has m id (by simpa using hh)]
    rfl

theorem cmHas_of_lookup_block (m : ConnectionMap) (id : String) (b : SBlock)
    (h : (lookupOld m id).1 = some b) : cmHas m id = true := by
  unfold lookupOld at h
  by_cases hh : cmHas m id = true
  · exact hh
  · rw [if_neg hh] at h
    simp at h

theorem entry_eq_cmGet (m : ConnectionMap) (hnd : (cmKeys m).Nodup) :
    ∀ e ∈ m, cmGet m e.1 = e.2 := by
  induction m with
  | nil => intro e he; simp at he
  | cons x r ih =>
    have hnd2 : x.1 ∉ cmKeys r ∧ (cmKeys r).Nodup := by
      unfold cmKeys at hnd ⊢
      rw [List.map_cons] at hnd
      exact List.nodup_cons.1 hnd
    intro e he
    rcases List.mem_cons.1 he with he | he
    · subst he
      unfold cmGet
      rw [List.find?_cons_of_pos _ (by simp)]
    · have hne : x.1 ≠ e.1 := by
        intro hc
        apply hnd2.1
        rw [hc]
        exact List.mem_map.2 ⟨e, he, rfl⟩
      unfold cmGet
      rw [List.find?_cons_of_neg _ (by simp only [beq_iff_eq]; exact hne)]
      exact ih hnd2.2 e he

theorem deleteShadows_disposed_nil (m : ConnectionMap)
    (h : ∀ e ∈ m, (e.2.bind SaveInfo.block) = none) : (deleteShadows m).2 = [] := by
  unfold deleteShadows
  simp only
  rw [List.filterMap_eq_nil_iff]
  intro e he
  have := h e he
  cases h2 : e.2 with
  | none => rfl
  | some si =>
    rw [h2] at this
    simp [Option.bind] at this
    simp [this]

/- ---------- Unfolding lemmas for the createAllInputs_ loop ---------- -/

theorem buildLoop_nil (role : Role) (gs : Option Bool) (ids names : List String)
    (st : BuildState) : buildLoop role gs ids names [] st = (st, none) := rfl

theorem buildLoop_cons_label (role : Role) (gs : Option Bool) (ids names : List String)
    (comp : List Char) (rest : List (List Char)) (st : BuildState)
    (h : ¬comp.head? = some '%') :
    buildLoop role gs ids names (comp :: rest) st =
      buildLoop role gs ids names rest
        { st with
          inputs := st.inputs ++ labelInputs role (replaceFirstEscPercent (trimChars comp)) } := by
  simp only [buildLoop]
  rw [if_neg h]

theorem buildLoop_cons_arg (role : Role) (gs : Option Bool) (ids names : List String)
    (comp : List Char) (rest : List (List Char)) (st : BuildState) (t : Char)
    (h1 : comp.head? = some '%') (h2 : comp[1]? = some t)
    (h3 : t = 'n' ∨ t = 'b' ∨ t = 's') :
    buildLoop role gs ids names (comp :: rest) st =
      buildLoop role gs ids names rest (argStep role gs ids names st t comp) := by
  simp only [buildLoop]
  rw [if_pos h1]
  simp only [h2]
  rw [if_pos h3]

theorem argTypeOf?_arg (t : Char) (ctl : List Char)
    (h3 : t = 'n' ∨ t = 'b' ∨ t = 's') :
    argTypeOf? ('%' :: t :: ctl) = some t := by
  show (if (t == 'n' || t == 'b' || t == 's') = true then some t else none) = some t
  rw [if_pos (by rcases h3 with h | h | h <;> simp [h])]

theorem argTypeOf?_of_head_ne (comp : List Char) (h : ¬comp.head? = some '%') :
    argTypeOf? comp = none := by
  unfold argTypeOf?
  split
  · exact absurd rfl h
  · rfl

theorem argTypesOf_cons_arg (t : Char) (ctl : List Char) (rest : List (List Char))
    (h3 : t = 'n' ∨ t = 'b' ∨ t = 's') :
    argTypesOf (('%' :: t :: ctl) :: rest) = t :: argTypesOf rest := by
  unfold argTypesOf
  rw [List.filterMap_cons, argTypeOf?_arg t ctl h3]

theorem argTypesOf_cons_label (comp : List Char) (rest : List (List Char))
    (h : ¬comp.head? = some '%') :
    argTypesOf (comp :: rest) = argTypesOf rest := by
  unfold argTypesOf
  rw [List.filterMap_cons, argTypeOf?_of_head_ne comp h]

/- ---------- Populate unfolding lemmas (call role) ---------- -/

theorem populateOnCaller_some (gs : Option Bool) (t : Char) (cm : ConnectionMap)
    (id : String) (nid : Nat) (ob : SBlock) (h : (lookupOld cm id).1 = some ob) :
    populateOnCaller gs t cm id nid =
      { target := some ob,
        shadowDom :=
          if t ≠ 'b' ∧ gs = some true then
            some ((lookupOld cm id).2.getD (buildShadowDom t))
          else none,
        cm := cmSet cm id none, nextId := nid } := by
  simp only [populateOnCaller]
  rw [h]

theorem populateOnCaller_none (gs : Option Bool) (t : Char) (cm : ConnectionMap)
    (id : String) (nid : Nat) (h : (lookupOld cm id).1 = none) :
    populateOnCaller gs t cm id nid =
      if gs = some true then
        if t = 'n' ∨ t = 's' then
          { target := some (attachShadowBlock t nid), shadowDom := none, cm := cm,
            nextId := nid + 1 }
        else { target := none, shadowDom := none, cm := cm, nextId := nid }
      else { target := none, shadowDom := none, cm := cm, nextId := nid } := by
  simp only [populateOnCaller]
  rw [h]

/- ---------- Small list helpers ---------- -/

theorem nodup_getD_not_mem_take (ids : List String) (hnd : ids.Nodup) (k : Nat)
    (hk : k < ids.length) (d : String) : ids.getD k d ∉ ids.take k := by
  intro hmem
  rw [List.getD_eq_getElem ids d hk] at hmem
  obtain ⟨i, hi, hig⟩ := List.mem_take_iff_getElem.1 hmem
  have hik : i < k := lt_of_lt_of_le hi (min_le_left _ _)
  have : i = k := (hnd.getElem_inj_iff).1 hig
  omega

theorem take_succ_getD (ids : List String) (k : Nat) (hk : k < ids.length) (d : String) :
    ids.take (k + 1) = ids.take k ++ [ids.getD k d] := by
  rw [List.take_succ, List.getD_eq_getElem ids d hk, List.getElem?_eq_getElem hk]
  rfl

/-- Master lemma for the rebuild loop on a call block: processing a valid
component list that carries exactly the remaining argument types runs
without error and establishes the invariant at `k = ids.length`. -/
theorem buildLoop_call_master (gs : Option Bool) (ids names : List String)
    (cm0 : ConnectionMap) (typesFull : List Char) (hnd : ids.Nodup) :
    ∀ (comps : List (List Char)) (k : Nat) (st : BuildState),
      comps.all compValid = true →
      argTypesOf comps = typesFull.drop k →
      k + (argTypesOf comps).length = ids.length →
      CallInv gs ids cm0 typesFull k st →
      (buildLoop .call gs ids names comps st).2 = none ∧
      CallInv gs ids cm0 typesFull ids.length (buildLoop .call gs ids names comps st).1 := by
  intro comps
  induction comps with
  | nil =>
    intro k st _ _ hcount hinv
    have hk : k = ids.length := by
      simpa [argTypesOf] using hcount
    rw [buildLoop_nil]
    exact ⟨rfl, hk ▸ hinv⟩
  | cons comp rest ih =>
    intro k st hvalid htypes hcount hinv
    have hall := hvalid
    rw [List.all_cons, Bool.and_eq_true] at hall
    have hvc : compValid comp = true := hall.1
    have hvr : rest.all compValid = true := hall.2
    by_cases hhead : comp.head? = some '%'
    · -- argument component
      obtain ⟨c0, ctl0, hcomp0⟩ : ∃ c0 ctl0, comp = c0 :: ctl0 := by
        cases comp with
        | nil => simp at hhead
        | cons a b => exact ⟨a, b, rfl⟩
      have hc0 : c0 = '%' := by
        rw [hcomp0] at hhead
        simpa using hhead
      subst hc0
      obtain ⟨t, ctl, hcomp⟩ : ∃ t ctl, comp = '%' :: t :: ctl := by
        cases ctl0 with
        | nil =>
          rw [hcomp0] at hvc
          simp [compValid] at hvc
        | cons a b => exact ⟨a, b, hcomp0⟩
      have ht : t = 'n' ∨ t = 'b' ∨ t = 's' := by
        rw [hcomp] at hvc
        unfold compValid at hvc
        rcases Bool.or_eq_true .. ▸ hvc with h | h
        · rcases Bool.or_eq_true .. ▸ h with h | h
          · exact Or.inl (by simpa using h)
          · exact Or.inr (Or.inl (by simpa using h))
        · exact Or.inr (Or.inr (by simpa using h))
      have htypes' : t :: argTypesOf rest = typesFull.drop k := by
        rw [hcomp] at htypes
        rwa [argTypesOf_cons_arg t ctl rest ht] at htypes
      have hcount' : k + (t :: argTypesOf rest).length = ids.length := by
        rw [hcomp] at hcount
        rwa [argTypesOf_cons_arg t ctl rest ht] at hcount
      have hklt : k < ids.length := by
        simp at hcount'
        omega
      have hrestTypes : argTypesOf rest = typesFull.drop (k + 1) := by
        have : typesFull.drop (k + 1) = List.drop 1 (typesFull.drop k) := by
          rw [List.drop_drop]
        rw [this, ← htypes']
        rfl
      have htfk : typesFull.getD k ' ' = t := by
        have h1 : (typesFull.drop k)[0]? = typesFull[k]? := by
          rw [List.getElem?_drop, Nat.add_zero]
        rw [List.getD_eq_getD_get?, List.get?_eq_getElem?, ← h1, ← htypes']
        simp
      -- the processed slot id
      set idk := ids.getD k "" with hidk
      have hidk_notin : idk ∉ ids.take k := nodup_getD_not_mem_take ids hnd k hklt ""
      have htake1 : ids.take (k + 1) = ids.take k ++ [idk] := take_succ_getD ids k hklt ""
      have hlook : lookupOld st.cm idk = lookupOld cm0 idk :=
        lookupOld_of_keys_get _ _ _ hinv.keys_eq (hinv.get_out idk hidk_notin)
      have hlen_vi : (valueInputs st.inputs).length = k := by
        have := congrArg List.length hinv.names_ok
        simpa [List.length_take, Nat.min_eq_left (le_of_lt hklt)] using this
      have hbl := buildLoop_cons_arg Role.call gs ids names comp rest st t
        (by rw [hcomp]; rfl) (by rw [hcomp]; simp) ht
      rw [hbl]
      -- unfold the argument step
      have hargstep : argStep Role.call gs ids names st t comp =
          { inputs := st.inputs
              ++ [Input.value idk (populateOnCaller gs t st.cm idk st.nextId).target
                    (populateOnCaller gs t st.cm idk st.nextId).shadowDom
                    (if t = 'b' then some "Boolean" else none)]
              ++ labelInputs Role.call
                  (replaceFirstEscPercent (trimChars (comp.drop 2))),
            cm := (populateOnCaller gs t st.cm idk st.nextId).cm,
            nextId := (populateOnCaller gs t st.cm idk st.nextId).nextId,
            argCount := st.argCount + 1 } := by
        unfold argStep
        rw [hinv.argc, ← hidk]
        rfl
      rw [hargstep]
      apply ih (k + 1) _ hvr hrestTypes (by simp at hcount' ⊢; omega)
      -- establish the invariant at k + 1
      have hvi_new : ∀ pop : PopResult,
          valueInputs (st.inputs ++ [Input.value idk pop.target pop.shadowDom
              (if t = 'b' then some "Boolean" else none)]
            ++ labelInputs Role.call (replaceFirstEscPercent (trimChars (comp.drop 2)))) =
          valueInputs st.inputs ++ [(idk, pop.target)] := by
        intro pop
        rw [valueInputs_append, valueInputs_append, valueInputs_labelInputs]
        simp [valueInputs]
      cases hold : (lookupOld cm0 idk).1 with
      | some ob =>
        -- the old block is reattached and its entry nulled
        have hpop := populateOnCaller_some gs t st.cm idk st.nextId ob (hlook ▸ hold)
        have hhas : cmHas st.cm idk = true := cmHas_of_lookup_block _ _ ob (hlook ▸ hold)
        constructor
        · rw [hinv.argc]
        · rw [hvi_new, hpop]
          rw [htake1]
          simp only [List.map_append, hinv.names_ok, List.map_cons, List.map_nil]
        · intro i c hik hci
          rw [hvi_new]
          rcases Nat.lt_or_ge i k with hik2 | hik2
          · rw [List.getD_append _ _ _ _ (by rw [hlen_vi]; exact hik2)]
            exact hinv.targets_old i c hik2 hci
          · have hik3 : i = k := by omega
            subst hik3
            rw [List.getD_append_right _ _ _ _ (by omega), hlen_vi, Nat.sub_self]
            rw [hpop]
            rw [← hidk] at hci
            rw [hold] at hci
            simpa using hci
        · intro i hik hci hgs
          rw [hvi_new]
          rcases Nat.lt_or_ge i k with hik2 | hik2
          · rw [List.getD_append _ _ _ _ (by rw [hlen_vi]; exact hik2)]
            exact hinv.targets_none i hik2 hci hgs
          · have hik3 : i = k := by omega
            subst hik3
            rw [← hidk] at hci
            rw [hold] at hci
            cases hci
        · rw [hpop]
          exact (cmKeys_cmSet st.cm idk none hhas).trans hinv.keys_eq
        · intro id hid
          rw [hpop]
          have hid1 : id ∉ ids.take k := by
            intro hmem
            exact hid (by rw [htake1]; exact List.mem_append_left _ hmem)
          have hid2 : id ≠ idk := by
            intro hc
            exact hid (by rw [htake1, hc]; exact List.mem_append_right _ (by simp))
          rw [cmGet_cmSet_ne st.cm idk id none hid2]
          exact hinv.get_out id hid1
        · intro id hid
          rw [hpop]
          rw [htake1] at hid
          rcases List.mem_append.1 hid with hid | hid
          · have hid2 : id ≠ idk := by
              intro hc
              exact hidk_notin (hc ▸ hid)
            rw [cmGet_cmSet_ne st.cm idk id none hid2]
            exact hinv.consumed id hid
          · have hid2 : id = idk := by simpa using hid
            subst hid2
            rw [cmGet_cmSet_self st.cm idk none hhas]
            rfl
      | none =>
        -- no old block: the connection map is unchanged
        have hpop := populateOnCaller_none gs t st.cm idk st.nextId (hlook ▸ hold)
        have hcm_unch : (populateOnCaller gs t st.cm idk st.nextId).cm = st.cm := by
          rw [hpop]
          by_cases hgs : gs = some true
          · rw [if_pos hgs]
            by_cases hts : t = 'n' ∨ t = 's'
            · rw [if_pos hts]
            · rw [if_neg hts]
          · rw [if_neg hgs]
        constructor
        · rw [hinv.argc]
        · rw [hvi_new]
          rw [htake1]
          simp only [List.map_append, hinv.names_ok, List.map_cons, List.map_nil]
        · intro i c hik hci
          rw [hvi_new]
          rcases Nat.lt_or_ge i k with hik2 | hik2
          · rw [List.getD_append _ _ _ _ (by rw [hlen_vi]; exact hik2)]
            exact hinv.targets_old i c hik2 hci
          · have hik3 : i = k := by omega
            subst hik3
            rw [← hidk, hold] at hci
            cases hci
        · intro i hik hci hgs
          rw [hvi_new]
          rcases Nat.lt_or_ge i k with hik2 | hik2
          · rw [List.getD_append _ _ _ _ (by rw [hlen_vi]; exact hik2)]
            exact hinv.targets_none i hik2 hci hgs
          · have hik3 : i = k := by omega
            subst hik3
            rw [List.getD_append_right _ _ _ _ (by omega), hlen_vi, Nat.sub_self]
            rw [hpop, if_pos hgs]
            rw [htfk]
            rcases ht with ht1 | ht1 | ht1 <;> subst ht1
            · rw [if_pos (Or.inl rfl)]
              unfold synthShape
              rw [if_neg (by decide), if_pos rfl]
              exact ⟨st.nextId, by simp [attachShadowBlock]⟩
            · rw [if_neg (by decide)]
              unfold synthShape
              rw [if_pos rfl]
              rfl
            · rw [if_pos (Or.inr rfl)]
              unfold synthShape
              rw [if_neg (by decide), if_neg (by decide)]
              exact ⟨st.nextId, by simp [attachShadowBlock]⟩
        · rw [hcm_unch]
          exact hinv.keys_eq
        · intro id hid
          rw [hcm_unch]
          apply hinv.get_out
          intro hmem
          exact hid (by rw [htake1]; exact List.mem_append_left _ hmem)
        · intro id hid
          rw [hcm_unch]
          rw [htake1] at hid
          rcases List.mem_append.1 hid with hid | hid
          · exact hinv.consumed id hid
          · have hid2 : id = idk := by simpa using hid
            subst hid2
            rw [hinv.get_out idk hidk_notin]
            exact lookupOld_block_none cm0 idk hold
    · -- label component
      have hbl := buildLoop_cons_label Role.call gs ids names comp rest st hhead
      rw [hbl]
      have htypes' : argTypesOf rest = typesFull.drop k := by
        rw [← argTypesOf_cons_label comp rest hhead]
        exact htypes
      have hcount' : k + (argTypesOf rest).length = ids.length := by
        rw [argTypesOf_cons_label comp rest hhead] at hcount
        exact hcount
      apply ih k _ hvr htypes' hcount'
      have hvi : valueInputs (st.inputs ++ labelInputs Role.call
          (replaceFirstEscPercent (trimChars comp))) = valueInputs st.inputs := by
        rw [valueInputs_append, valueInputs_labelInputs]
        simp
      constructor
      · exact hinv.argc
      · rw [hvi]
        exact hinv.names_ok
      · intro i c hik hci
        rw [hvi]
        exact hinv.targets_old i c hik hci
      · intro i hik hci hgs
        rw [hvi]
        exact hinv.targets_none i hik hci hgs
      · exact hinv.keys_eq
      · exact hinv.get_out
      · exact hinv.consumed

theorem valueNames_eq_map_fst (inputs : List Input) :
    valueNames inputs = (valueInputs inputs).map Prod.fst := rfl

/-- Entry point of the master lemma: a valid procCode with as many argument
markers as there are argument ids rebuilds without error and establishes
the full invariant. -/
theorem createAllInputs_call (gs : Option Bool) (ids names : List String)
    (cm0 : ConnectionMap) (n : Nat) (hnd : ids.Nodup) (pc : String)
    (hvalid : procCodeValid pc = true) (hcount : procArgCount pc = ids.length) :
    (createAllInputs Role.call gs pc ids names cm0 n).2 = none ∧
    CallInv gs ids cm0 (procArgTypes pc) ids.length
      (createAllInputs Role.call gs pc ids names cm0 n).1 := by
  unfold createAllInputs
  apply buildLoop_call_master gs ids names cm0 (procArgTypes pc) hnd (components pc) 0 _
    hvalid (by rw [List.drop_zero]; rfl)
    (by unfold procArgCount procArgTypes at hcount; omega)
  constructor
  · rfl
  · rfl
  · intro i c hik _
    omega
  · intro i hik _ _
    omega
  · rfl
  · intro id _
    rfl
  · intro id hid
    simp at hid

/-- `updateDisplay_` on a call block with a valid procCode: no error, the
rebuilt inputs come from `createAllInputs_`, and the disposed blocks come
from `deleteShadows_` on the final connection map. -/
theorem updateDisplay_call (b : PBlock) (n : Nat) (hrole : b.role = Role.call)
    (hnd : b.argumentIds.Nodup) (hvalid : procCodeValid b.procCode = true)
    (hcount : procArgCount b.procCode = b.argumentIds.length) :
    (updateDisplay b n).error = none ∧
    CallInv b.generateShadows b.argumentIds (disconnectOldBlocks b.inputs)
      (procArgTypes b.procCode) b.argumentIds.length
      (createAllInputs Role.call b.generateShadows b.procCode b.argumentIds b.displayNames
        (disconnectOldBlocks b.inputs) n).1 ∧
    (updateDisplay b n).blk.inputs =
      (createAllInputs Role.call b.generateShadows b.procCode b.argumentIds b.displayNames
        (disconnectOldBlocks b.inputs) n).1.inputs ∧
    (updateDisplay b n).disposed =
      (deleteShadows (createAllInputs Role.call b.generateShadows b.procCode b.argumentIds
        b.displayNames (disconnectOldBlocks b.inputs) n).1.cm).2 := by
  obtain ⟨herr, hinv⟩ := createAllInputs_call b.generateShadows b.argumentIds b.displayNames
    (disconnectOldBlocks b.inputs) n hnd b.procCode hvalid hcount
  simp only [updateDisplay]
  rw [hrole, herr]
  exact ⟨rfl, hinv, rfl, rfl⟩

/- ---------- Claim C1 ---------- -/

/-- C1 (amended to call blocks): on a procedure call block whose fields
already carry the new mutation (procCode and argument ids), if the new
argument-id list is a permutation of the old value-input names, the
procCode parses, and it has one argument marker per id, then
`updateDisplay_` succeeds, the rebuilt value inputs are named by the new id
list in order (each slot at its new position), every previously attached
child block — in particular every non-shadow child — is reattached to the
input named by its same slot id, and no child block is disposed. -/
theorem spec_c1_theorem (b : PBlock) (n : Nat)
    (hrole : b.role = Role.call)
    (hnodup : (valueNames b.inputs).Nodup)
    (hperm : b.argumentIds.Perm (valueNames b.inputs))
    (hvalid : procCodeValid b.procCode = true)
    (hcount : procArgCount b.procCode = b.argumentIds.length) :
    (updateDisplay b n).error = none ∧
    valueNames (updateDisplay b n).blk.inputs = b.argumentIds ∧
    (∀ id c, (id, some c) ∈ valueInputs b.inputs →
      (id, some c) ∈ valueInputs (updateDisplay b n).blk.inputs) ∧
    (updateDisplay b n).disposed = [] := by
  have hnd : b.argumentIds.Nodup := (hperm.nodup_iff).2 hnodup
  obtain ⟨herr, hinv, hinputs, hdisposed⟩ := updateDisplay_call b n hrole hnd hvalid hcount
  set st := (createAllInputs Role.call b.generateShadows b.procCode b.argumentIds
    b.displayNames (disconnectOldBlocks b.inputs) n).1 with hst
  have hkeys0 : cmKeys (disconnectOldBlocks b.inputs) = valueNames b.inputs := by
    rw [disconnect_eq_valueEntries b.inputs hnodup, cmKeys_valueEntries]
  refine ⟨herr, ?_, ?_, ?_⟩
  · rw [hinputs, valueNames_eq_map_fst, hinv.names_ok, List.take_length]
  · intro id c hm
    have hment : id ∈ valueNames b.inputs := by
      rw [valueNames_eq_map_fst]
      exact List.mem_map.2 ⟨(id, some c), hm, rfl⟩
    obtain ⟨sd, hsd⟩ : ∃ sd, cmGet (disconnectOldBlocks b.inputs) id =
        some { shadowDom := sd, block := some c } := by
      rw [disconnect_eq_valueEntries b.inputs hnodup]
      exact cmGet_valueEntries_of_mem b.inputs hnodup id (some c) hm
    have hhas : cmHas (disconnectOldBlocks b.inputs) id = true := by
      rw [cmHas_iff, hkeys0]
      exact hment
    have hlook : (lookupOld (disconnectOldBlocks b.inputs) id).1 = some c := by
      unfold lookupOld
      rw [if_pos hhas, hsd]
    have hidmem : id ∈ b.argumentIds := hperm.mem_iff.2 hment
    obtain ⟨i, hi, hig⟩ := List.mem_iff_getElem.1 hidmem
    have hgd : b.argumentIds.getD i "" = id := by
      rw [List.getD_eq_getElem _ _ hi, hig]
    have htgt := hinv.targets_old i c hi (by rw [hgd]; exact hlook)
    have hlenvi : (valueInputs st.inputs).length = b.argumentIds.length := by
      have hh := congrArg List.length hinv.names_ok
      simpa [List.take_length] using hh
    have hi2 : i < (valueInputs st.inputs).length := by omega
    have hfst : ((valueInputs st.inputs).get ⟨i, hi2⟩).1 = id := by
      have hh := congrArg (fun l => l.getD i "") hinv.names_ok
      simp only [List.take_length] at hh
      rw [List.getD_eq_getElem _ _ (by rw [List.length_map]; exact hi2),
        List.getElem_map] at hh
      rw [List.get_eq_getElem, hh, hgd]
    have hsnd : ((valueInputs st.inputs).get ⟨i, hi2⟩).2 = some c := by
      rw [List.getD_eq_getElem _ _ hi2] at htgt
      rw [List.get_eq_getElem]
      exact htgt
    have hpair : ((valueInputs st.inputs).get ⟨i, hi2⟩) = (id, some c) := by
      rw [← hfst, ← hsnd]
    rw [hinputs, ← hpair]
    exact List.get_mem _ _ hi2
  · rw [hdisposed]
    apply deleteShadows_disposed_nil
    intro e he
    have hkeynodup : (cmKeys st.cm).Nodup := by
      rw [hinv.keys_eq, hkeys0]
      exact hnodup
    have hget := entry_eq_cmGet st.cm hkeynodup e he
    have hkeymem : e.1 ∈ cmKeys st.cm := List.mem_map.2 ⟨e, he, rfl⟩
    rw [hinv.keys_eq, hkeys0] at hkeymem
    have hidmem : e.1 ∈ b.argumentIds := hperm.mem_iff.2 hkeymem
    have hcons := hinv.consumed e.1 (by rw [List.take_length]; exact hidmem)
    rw [hget] at hcons
    exact hcons

/-- C1 witness: a concrete call block with two argument slots (`aa` holding
a non-shadow `math_number` child, `bb` empty) mutated to the swapped id
order with procCode `"%s %b"`. -/
theorem spec_c1_witness :
    (let bw : PBlock :=
      { role := Role.call, procCode := "%s %b", argumentIds := ["bb", "aa"],
        displayNames := [], argumentDefaults := [], warp := false,
        generateShadows := some true,
        inputs := [Input.value "aa"
            (some { bid := 1, btype := "math_number", shadow := false, fieldVal := "7" })
            none none,
          Input.value "bb" none none none] }
    (updateDisplay bw 5).error = none ∧
    valueNames (updateDisplay bw 5).blk.inputs = ["bb", "aa"] ∧
    ("aa", some ({ bid := 1, btype := "math_number", shadow := false, fieldVal := "7" } : SBlock))
      ∈ valueInputs (updateDisplay bw 5).blk.inputs ∧
    (updateDisplay bw 5).disposed = []) := by
  have h := spec_c1_theorem
    { role := Role.call, procCode := "%s %b", argumentIds := ["bb", "aa"],
      displayNames := [], argumentDefaults := [], warp := false,
      generateShadows := some true,
      inputs := [Input.value "aa"
          (some { bid := 1, btype := "math_number", shadow := false, fieldVal := "7" })
          none none,
        Input.value "bb" none none none] } 5
    rfl (by decide) (by decide) (by decide) (by decide)
  exact ⟨h.1, h.2.1, h.2.2.1 "aa" _ (by decide), h.2.2.2⟩

/-- C1 counterexample: the claim as stated also covers prototype and
declaration blocks, where it fails.  On a prototype, a previously attached
NON-SHADOW child that is not an argument reporter of the slot's kind is
not reattached (a fresh argument reporter replaces it) even under the
identity permutation; on a declaration, the identity permutation disposes
the previously attached child (the old shadow argument editor), so a child
block IS disposed. -/
theorem spec_c1_counterexample :
    (let bp : PBlock :=
      { role := Role.proto, procCode := "%s", argumentIds := ["a"],
        displayNames := ["arg"], argumentDefaults := [""], warp := false,
        generateShadows := none,
        inputs := [Input.value "a"
            (some { bid := 1, btype := "math_number", shadow := false, fieldVal := "5" })
            none none] }
    (updateDisplay bp 10).error = none ∧
    ("a", some ({ bid := 1, btype := "math_number", shadow := false, fieldVal := "5" } : SBlock))
      ∉ valueInputs (updateDisplay bp 10).blk.inputs) ∧
    (let bd : PBlock :=
      { role := Role.decl, procCode := "%s", argumentIds := ["a"],
        displayNames := ["x"], argumentDefaults := [""], warp := false,
        generateShadows := none,
        inputs := [Input.value "a"
            (some { bid := 8, btype := "argument_editor_string_number", shadow := true, fieldVal := "x" })
            none none] }
    (updateDisplay bd 20).error = none ∧ (updateDisplay bd 20).disposed ≠ []) := by
  decide

/- ---------- Claim C4 ---------- -/

/-- C4 (amended): on a call block with shadow generation enabled, an
argument slot with no previously attached block to reattach receives a
`math_number` shadow prefilled "1" when its marker is `%n`, an empty-text
shadow when its marker is `%s`, and no shadow when its marker is `%b`
(string-or-number slots get a TEXT default, not the numeric default the
spec describes). -/
theorem spec_c4_theorem (b : PBlock) (n : Nat)
    (hrole : b.role = Role.call)
    (hgs : b.generateShadows = some true)
    (hnodup : (valueNames b.inputs).Nodup)
    (hnd : b.argumentIds.Nodup)
    (hvalid : procCodeValid b.procCode = true)
    (hcount : procArgCount b.procCode = b.argumentIds.length) :
    ∀ i, i < b.argumentIds.length →
      (∀ c, (b.argumentIds.getD i "", some c) ∉ valueInputs b.inputs) →
      synthShape ((procArgTypes b.procCode).getD i ' ')
        (((valueInputs (updateDisplay b n).blk.inputs).getD i ("", none)).2) := by
  intro i hi hnone
  obtain ⟨herr, hinv, hinputs, hdisposed⟩ := updateDisplay_call b n hrole hnd hvalid hcount
  have hlooknone : (lookupOld (disconnectOldBlocks b.inputs) (b.argumentIds.getD i "")).1 =
      none := by
    by_cases hmem : b.argumentIds.getD i "" ∈ valueNames b.inputs
    · obtain ⟨e, he, hek⟩ := List.mem_map.1 (by
        rw [valueNames_eq_map_fst] at hmem
        exact hmem)
      have he2 : e.2 = none := by
        cases h2 : e.2 with
        | none => rfl
        | some c =>
          exfalso
          apply hnone c
          have hpe : (b.argumentIds.getD i "", some c) = e := by
            rw [← hek, ← h2]
          rw [hpe]
          exact he
      have hentry : (b.argumentIds.getD i "", (none : Option SBlock)) ∈
          valueInputs b.inputs := by
        have hpe : (b.argumentIds.getD i "", (none : Option SBlock)) = e := by
          rw [← hek, ← he2]
        rw [hpe]
        exact he
      obtain ⟨sd, hsd⟩ := cmGet_valueEntries_of_mem b.inputs hnodup _ none hentry
      have hhas : cmHas (disconnectOldBlocks b.inputs) (b.argumentIds.getD i "") = true := by
        rw [cmHas_iff, disconnect_eq_valueEntries b.inputs hnodup, cmKeys_valueEntries]
        exact hmem
      unfold lookupOld
      rw [if_pos hhas, disconnect_eq_valueEntries b.inputs hnodup, hsd]
    · have hhas : cmHas (disconnectOldBlocks b.inputs) (b.argumentIds.getD i "") = false := by
        rw [← Bool.not_eq_true, cmHas_iff, disconnect_eq_valueEntries b.inputs hnodup,
          cmKeys_valueEntries]
        exact hmem
      unfold lookupOld
      rw [hhas]
      rfl
  have := hinv.targets_none i hi hlooknone hgs
  rw [hinputs]
  exact this

/-- C4 witness: a fresh call block (no previous inputs) with procCode
`"%n %s %b"` and shadow generation on: slot 0 gets a `math_number` "1"
shadow, slot 1 gets an empty `text` shadow, slot 2 gets nothing. -/
theorem spec_c4_witness :
    (let bw : PBlock :=
      { role := Role.call, procCode := "%n %s %b", argumentIds := ["a", "b", "c"],
        displayNames := [], argumentDefaults := [], warp := false,
        generateShadows := some true, inputs := [] }
    synthShape ((procArgTypes "%n %s %b").getD 0 ' ')
      (((valueInputs (updateDisplay bw 0).blk.inputs).getD 0 ("", none)).2) ∧
    synthShape ((procArgTypes "%n %s %b").getD 1 ' ')
      (((valueInputs (updateDisplay bw 0).blk.inputs).getD 1 ("", none)).2) ∧
    synthShape ((procArgTypes "%n %s %b").getD 2 ' ')
      (((valueInputs (updateDisplay bw 0).blk.inputs).getD 2 ("", none)).2)) := by
  refine ⟨?_, ?_, ?_⟩ <;>
    exact spec_c4_theorem
      { role := Role.call, procCode := "%n %s %b", argumentIds := ["a", "b", "c"],
        displayNames := [], argumentDefaults := [], warp := false,
        generateShadows := some true, inputs := [] } 0
      rfl rfl (by decide) (by decide) (by decide) (by decide) _ (by decide)
      (fun c h => absurd h (List.not_mem_nil _))

/-- C4 counterexample: the claim says string-or-number slots get a
`math_number` shadow prefilled "1"; the code attaches an empty `text`
shadow for a `%s` slot instead. -/
theorem spec_c4_counterexample :
    (let bw : PBlock :=
      { role := Role.call, procCode := "%s", argumentIds := ["a"],
        displayNames := [], argumentDefaults := [], warp := false,
        generateShadows := some true, inputs := [] }
    valueInputs (updateDisplay bw 0).blk.inputs =
      [("a", some { bid := 0, btype := "text", shadow := true, fieldVal := "" })] ∧
    ∀ m, ("a", some ({ bid := m, btype := "math_number", shadow := true, fieldVal := "1" } : SBlock))
      ∉ valueInputs (updateDisplay bw 0).blk.inputs) := by
  constructor
  · decide
  · intro m hmem
    have : valueInputs (updateDisplay
        { role := Role.call, procCode := "%s", argumentIds := ["a"],
          displayNames := [], argumentDefaults := [], warp := false,
          generateShadows := some true, inputs := [] } 0).blk.inputs =
        [("a", some { bid := 0, btype := "text", shadow := true, fieldVal := "" })] := by
      decide
    rw [this] at hmem
    simp at hmem

/- ---------- Claim C5 ---------- -/

/-- C5 (code bug): on a declaration block whose slot holds a previously
attached argument editor of the MATCHING kind (a string/number editor on a
`%s` slot), the mutation does not reuse it: `checkOldTypeMatches_` tests
for argument reporter types (its own TODO notes it always returns false
for editors), so a fresh editor (new block id 42) seeded with the new
display name is attached and the old shadow editor is disposed — while the
claim and the spec require the old editor to be reused in place with its
text field set to the new display name. -/
theorem spec_c5_code_bug :
    (let bd : PBlock :=
      { role := Role.decl, procCode := "%s", argumentIds := ["a"],
        displayNames := ["new"], argumentDefaults := [""], warp := false,
        generateShadows := none,
        inputs := [Input.value "a"
            (some { bid := 7, btype := "argument_editor_string_number", shadow := true, fieldVal := "old" })
            none none] }
    (updateDisplay bd 42).error = none ∧
    valueInputs (updateDisplay bd 42).blk.inputs =
      [("a", some { bid := 42, btype := "argument_editor_string_number", shadow := true, fieldVal := "new" })] ∧
    (updateDisplay bd 42).disposed =
      [{ bid := 7, btype := "argument_editor_string_number", shadow := true, fieldVal := "old" }]) := by
  decide

/- ---------- The shape of a parse failure (used by C2 and C6) ---------- -/

theorem splitProcAux_head (l : List Char) :
    ∀ cur, cur ≠ [] → ∃ u chunks, splitProcAux cur l = (cur ++ u) :: chunks := by
  induction l with
  | nil =>
    intro cur _
    exact ⟨[], [], by simp [splitProcAux]⟩
  | cons c rest ih =>
    intro cur hcur
    simp only [splitProcAux]
    by_cases hcut : cur ≠ [] ∧ isSplitPoint (c :: rest) = true
    · rw [if_pos hcut]
      exact ⟨[], splitProcAux [c] rest, by rw [List.append_nil]⟩
    · rw [if_neg hcut]
      obtain ⟨u, chunks, hu⟩ := ih (cur ++ [c]) (by simp)
      exact ⟨[c] ++ u, chunks, by rw [hu, List.append_assoc]⟩

theorem dropTrailingWS_cons_cons (a b : Char) (t : List Char)
    (hb : b.isWhitespace = false) :
    dropTrailingWS (a :: b :: t) = a :: b :: dropTrailingWS t := by
  unfold dropTrailingWS
  have h1 : (a :: b :: t).reverse = (t.reverse ++ [b]) ++ [a] := by simp
  rw [h1, List.dropWhile_append, List.dropWhile_append]
  have hb2 : List.dropWhile Char.isWhitespace [b] = [b] := by
    rw [List.dropWhile_cons, if_neg (by rw [hb]; simp)]
  by_cases he : (List.dropWhile Char.isWhitespace t.reverse).isEmpty = true
  · rw [if_pos he, hb2, if_neg (by simp)]
    rw [List.isEmpty_iff] at he
    rw [he]
    simp
  · rw [if_neg he, if_neg (by
      intro hc
      rw [List.isEmpty_iff] at hc he
      rw [List.append_eq_nil] at hc
      exact he hc.1)]
    simp

theorem components_first_marker (c : Char) (rest : String)
    (hsp : isSplitPoint (c :: rest.toList) = false) (hws : c.isWhitespace = false) :
    ∃ u chunks, components ("%" ++ String.mk [c] ++ rest) = ('%' :: c :: u) :: chunks := by
  unfold components
  have htl : ("%" ++ String.mk [c] ++ rest).toList = '%' :: c :: rest.toList := by
    show ("%" ++ String.mk [c] ++ rest).data = '%' :: c :: rest.data
    rw [String.data_append, String.data_append]
    rfl
  rw [htl]
  have h1 : splitProcAux [] ('%' :: c :: rest.toList) =
      splitProcAux ['%'] (c :: rest.toList) := by
    simp only [splitProcAux]
    rw [if_neg (by simp)]
    rfl
  have h2 : splitProcAux ['%'] (c :: rest.toList) = splitProcAux ['%', c] rest.toList := by
    simp only [splitProcAux]
    rw [if_neg (by
      intro hcontra
      rw [hsp] at hcontra
      exact absurd hcontra.2 (by simp))]
    rfl
  obtain ⟨u, chunks, hu⟩ := splitProcAux_head rest.toList ['%', c] (by simp)
  rw [h1, h2, hu, List.map_cons]
  refine ⟨dropTrailingWS u, chunks.map trimChars, ?_⟩
  have htr : trimChars (['%', c] ++ u) = '%' :: c :: dropTrailingWS u := by
    unfold trimChars
    have hh : List.dropWhile Char.isWhitespace (['%', c] ++ u) = '%' :: c :: u := by
      show List.dropWhile Char.isWhitespace ('%' :: c :: u) = '%' :: c :: u
      rw [List.dropWhile_cons, if_neg (by decide)]
    rw [hh]
    exact dropTrailingWS_cons_cons '%' c u hws
  rw [htr]

theorem buildLoop_cons_invalid (role : Role) (gs : Option Bool) (ids names : List String)
    (comp : List Char) (rest : List (List Char)) (st : BuildState) (t : Char)
    (h1 : comp.head? = some '%') (h2 : comp[1]? = some t)
    (h3 : ¬(t = 'n' ∨ t = 'b' ∨ t = 's')) :
    buildLoop role gs ids names (comp :: rest) st =
      (st, some (invalidTypeMsg (String.mk [t]))) := by
  simp only [buildLoop]
  rw [if_pos h1]
  simp only [h2]
  rw [if_neg h3]

/-- Shared shape lemma for C2 and C6: when the new procCode starts with an
argument marker carrying an invalid letter, `updateDisplay_` throws the
`InvalidArgumentType` error naming that letter — but only after the
disconnect and clear phases already ran, so the resulting block has NO
inputs (the old sockets are gone and nothing was rebuilt) and
`deleteShadows_` never runs (nothing is disposed). -/
theorem updateDisplay_first_invalid (b : PBlock) (n : Nat) (c : Char) (rest : String)
    (hc : ¬(c = 'n' ∨ c = 'b' ∨ c = 's')) (hws : c.isWhitespace = false)
    (hsp : isSplitPoint (c :: rest.toList) = false)
    (hpc : b.procCode = "%" ++ String.mk [c] ++ rest) :
    (updateDisplay b n).error = some (invalidTypeMsg (String.mk [c])) ∧
    (updateDisplay b n).blk.inputs = [] ∧
    (updateDisplay b n).disposed = [] := by
  have hca : createAllInputs b.role b.generateShadows b.procCode b.argumentIds
      b.displayNames (disconnectOldBlocks b.inputs) n =
      ({ inputs := [], cm := disconnectOldBlocks b.inputs, nextId := n, argCount := 0 },
        some (invalidTypeMsg (String.mk [c]))) := by
    unfold createAllInputs
    rw [hpc]
    obtain ⟨u, chunks, hcomp⟩ := components_first_marker c rest hsp hws
    rw [hcomp]
    exact buildLoop_cons_invalid b.role b.generateShadows b.argumentIds b.displayNames
      ('%' :: c :: u) chunks _ c rfl (by simp) hc
  simp only [updateDisplay]
  rw [hca]
  exact ⟨rfl, rfl, rfl⟩

/- ---------- Claim C2 ---------- -/

/-- C2 (amended): when the new procCode fails to parse (it starts with an
argument marker carrying an invalid type letter), the error is raised only
during the rebuild phase, after the disconnect and clear phases have
completed: the resulting block is left with no input sockets at all (every
previously attached block has been disconnected with them) and no shadows
deleted — the mutation is not atomic and the block is not left
unchanged. -/
theorem spec_c2_theorem (b : PBlock) (n : Nat) (c : Char) (rest : String)
    (hc : ¬(c = 'n' ∨ c = 'b' ∨ c = 's')) (hws : c.isWhitespace = false)
    (hsp : isSplitPoint (c :: rest.toList) = false)
    (hpc : b.procCode = "%" ++ String.mk [c] ++ rest) :
    (updateDisplay b n).error.isSome = true ∧
    (updateDisplay b n).blk.inputs = [] ∧
    (updateDisplay b n).disposed = [] := by
  obtain ⟨h1, h2, h3⟩ := updateDisplay_first_invalid b n c rest hc hws hsp hpc
  rw [h1]
  exact ⟨rfl, h2, h3⟩

/-- C2 witness: a call block with an attached child mutated to the
unparseable procCode `"%x foo"` ends up with its inputs gone (hence
changed) and an error raised. -/
theorem spec_c2_witness :
    (let bw : PBlock :=
      { role := Role.call, procCode := "%x foo", argumentIds := ["a"],
        displayNames := [], argumentDefaults := [], warp := false,
        generateShadows := some true,
        inputs := [Input.value "a"
            (some { bid := 3, btype := "math_number", shadow := false, fieldVal := "9" })
            none none] }
    (updateDisplay bw 3).error.isSome = true ∧
    (updateDisplay bw 3).blk.inputs = [] ∧
    (updateDisplay bw 3).disposed = []) :=
  spec_c2_theorem
    { role := Role.call, procCode := "%x foo", argumentIds := ["a"],
      displayNames := [], argumentDefaults := [], warp := false,
      generateShadows := some true,
      inputs := [Input.value "a"
          (some { bid := 3, btype := "math_number", shadow := false, fieldVal := "9" })
          none none] } 3 'x' " foo"
    (by decide) (by decide) (by decide) (by decide)

/-- C2 counterexample: the claim says a parse failure leaves the block
unchanged (no socket removed, no child disconnected); on the concrete call
block below, mutating to the unparseable procCode `"%x"` raises the error
with the block's input list already emptied — the old socket and its
attached child are gone. -/
theorem spec_c2_counterexample :
    (let bw : PBlock :=
      { role := Role.call, procCode := "%x", argumentIds := ["a"],
        displayNames := [], argumentDefaults := [], warp := false,
        generateShadows := some true,
        inputs := [Input.value "a"
            (some { bid := 3, btype := "math_number", shadow := false, fieldVal := "9" })
            none none] }
    (updateDisplay bw 0).error.isSome = true ∧
    (updateDisplay bw 0).blk.inputs ≠ bw.inputs ∧
    (updateDisplay bw 0).blk.inputs = []) := by
  decide

/- ---------- Claim C6 ---------- -/

/-- C6 (amended): an argument marker with an invalid type letter is
reported with an error naming the offending letter only when the marker
begins the (trimmed) procCode component — in particular when the procCode
itself starts with the marker, as proved here; an unescaped invalid marker
elsewhere in the procCode is silently treated as label text (see the
counterexample). -/
theorem spec_c6_theorem (b : PBlock) (n : Nat) (c : Char) (rest : String)
    (hc : ¬(c = 'n' ∨ c = 'b' ∨ c = 's')) (hws : c.isWhitespace = false)
    (hsp : isSplitPoint (c :: rest.toList) = false)
    (hpc : b.procCode = "%" ++ String.mk [c] ++ rest) :
    (updateDisplay b n).error = some (invalidTypeMsg (String.mk [c])) :=
  (updateDisplay_first_invalid b n c rest hc hws hsp hpc).1

/-- C6 witness: procCode `"%q data"` fails naming the letter `q`. -/
theorem spec_c6_witness :
    (let bw : PBlock :=
      { role := Role.proto, procCode := "%q data", argumentIds := [],
        displayNames := [], argumentDefaults := [], warp := false,
        generateShadows := none, inputs := [] }
    (updateDisplay bw 0).error =
      some "Found an custom procedure with an invalid type: q") :=
  spec_c6_theorem
    { role := Role.proto, procCode := "%q data", argumentIds := [],
      displayNames := [], argumentDefaults := [], warp := false,
      generateShadows := none, inputs := [] } 0 'q' " data"
    (by decide) (by decide) (by decide) (by decide)

/-- C6 counterexample: the claim says an invalid marker is reported
"regardless of where in the procCode it occurs"; the procCode `"say %x"`
contains the unescaped invalid marker `%x` but parses without any error,
silently rendering the whole component as the label `"say %x"`. -/
theorem spec_c6_counterexample :
    (let bw : PBlock :=
      { role := Role.call, procCode := "say %x", argumentIds := [],
        displayNames := [], argumentDefaults := [], warp := false,
        generateShadows := some true, inputs := [] }
    (updateDisplay bw 0).error = none ∧
    (updateDisplay bw 0).blk.inputs = [Input.dummy "say %x"]) := by
  decide

/- ---------- Claim C3 ---------- -/

theorem getCallers_nil_iff (pc rootId : String) (ws : Workspace) :
    getCallers pc ws rootId false = [] ↔
      ∀ st ∈ ws, st.root.idStr = rootId ∨
        ∀ d ∈ st.descendants, ¬(d.btype = "procedures_call" ∧ d.procCode = pc) := by
  unfold getCallers
  rw [List.flatMap_eq_nil_iff]
  constructor
  · intro h st hst
    by_cases hroot : st.root.idStr = rootId
    · exact Or.inl hroot
    · right
      intro d hd hcond
      have hthis := h st hst
      rw [if_neg (by intro hcontra; exact hroot hcontra.1)] at hthis
      rw [List.filter_eq_nil_iff] at hthis
      apply hthis d hd
      simp [isProcedureBlock, hcond.1, hcond.2]
  · intro h st hst
    by_cases hroot : st.root.idStr = rootId
    · rw [if_pos ⟨hroot, rfl⟩]
    · rw [if_neg (by intro hcontra; exact hroot hcontra.1)]
      rcases h st hst with hcase | hall
      · exact absurd hcase hroot
      · rw [List.filter_eq_nil_iff]
        intro d hd hcond
        simp only [isProcedureBlock, Bool.and_eq_true, Bool.or_eq_true, beq_iff_eq]
          at hcond
        exact hall d hd ⟨hcond.1.2, hcond.2⟩

/-- C3: `deleteProcedureDefCallback` returns true and disposes exactly the
definition root's stack precisely when the caller search with recursion
excluded (skipping the stack rooted at the definition root) finds no
procedure-call block with the given procCode; otherwise it returns false
and leaves the workspace unchanged. -/
theorem spec_c3_theorem (pc rootId : String) (ws : Workspace) :
    ((deleteProcedureDefCallback pc rootId ws).1 = true ↔
      ∀ st ∈ ws, st.root.idStr = rootId ∨
        ∀ d ∈ st.descendants, ¬(d.btype = "procedures_call" ∧ d.procCode = pc)) ∧
    ((deleteProcedureDefCallback pc rootId ws).1 = true →
      (deleteProcedureDefCallback pc rootId ws).2 =
        ws.filter (fun st => st.root.idStr ≠ rootId)) ∧
    ((deleteProcedureDefCallback pc rootId ws).1 = false →
      (deleteProcedureDefCallback pc rootId ws).2 = ws) := by
  have hiff := getCallers_nil_iff pc rootId ws
  unfold deleteProcedureDefCallback
  by_cases hn : getCallers pc ws rootId false = []
  · rw [if_neg (by rw [hn]; simp)]
    refine ⟨⟨fun _ => hiff.1 hn, fun _ => rfl⟩, fun _ => rfl, fun hc => absurd hc (by simp)⟩
  · rw [if_pos (List.length_pos.2 hn)]
    refine ⟨⟨fun hc => absurd hc (by simp), fun hr => absurd (hiff.2 hr) hn⟩,
      fun hc => absurd hc (by simp), fun _ => rfl⟩

/-- C3 witness: with a call site of `"p"` outside the definition stack the
deletion is refused and the workspace untouched; with only a recursive call
inside the definition stack the deletion succeeds and removes exactly the
definition stack. -/
theorem spec_c3_witness :
    (let wsBlocked : Workspace :=
      [{ root := { idStr := "d", btype := "procedures_definition", procCode := "" },
         rest := [{ idStr := "x", btype := "procedures_prototype", procCode := "p" }] },
       { root := { idStr := "r2", btype := "event_hat", procCode := "" },
         rest := [{ idStr := "c1", btype := "procedures_call", procCode := "p" }] }]
    (deleteProcedureDefCallback "p" "d" wsBlocked).1 = false ∧
    (deleteProcedureDefCallback "p" "d" wsBlocked).2 = wsBlocked) ∧
    (let wsFree : Workspace :=
      [{ root := { idStr := "d", btype := "procedures_definition", procCode := "" },
         rest := [{ idStr := "c9", btype := "procedures_call", procCode := "p" }] },
       { root := { idStr := "r2", btype := "event_hat", procCode := "" },
         rest := [{ idStr := "c1", btype := "procedures_call", procCode := "q" }] }]
    (deleteProcedureDefCallback "p" "d" wsFree).1 = true ∧
    (deleteProcedureDefCallback "p" "d" wsFree).2 =
      wsFree.filter (fun st => st.root.idStr ≠ "d")) := by
  constructor
  · constructor
    · decide
    · exact ( spec_c3_theorem "p" "d" _).2.2 (by decide)
  · constructor
    · exact ( spec_c3_theorem "p" "d" _).1.2 (by decide)
    · exact ( spec_c3_theorem "p" "d" _).2.1 (by decide)

/- ---------- Claim C9 ---------- -/

/-- Fields of the block after `updateDisplay_`: only the input list is
replaced; every serializable field is untouched (in both the error and the
success branch). -/
theorem updateDisplay_blk_fields (x : PBlock) (n : Nat) :
    (updateDisplay x n).blk.procCode = x.procCode ∧
    (updateDisplay x n).blk.argumentIds = x.argumentIds ∧
    (updateDisplay x n).blk.displayNames = x.displayNames ∧
    (updateDisplay x n).blk.argumentDefaults = x.argumentDefaults ∧
    (updateDisplay x n).blk.warp = x.warp ∧
    (updateDisplay x n).blk.generateShadows = x.generateShadows ∧
    (updateDisplay x n).blk.role = x.role := by
  simp only [updateDisplay]
  split <;> exact ⟨rfl, rfl, rfl, rfl, rfl, rfl, rfl⟩

/-- C9 (amended): a load-then-save cycle reproduces, for call blocks, the
proccode, argumentids and warp attributes (but drops generateshadows,
which `callerMutationToDom` never writes); for prototype and declaration
blocks it reproduces proccode, argumentids, argumentnames,
argumentdefaults and warp. -/
theorem spec_c9_theorem (b : PBlock) (el : MutationElement) (n : Nat)
    (ns ds : List String)
    (hns : el.argumentnames = some ns) (hds : el.argumentdefaults = some ds) :
    callerMutationToDom ((callerDomToMutation b el n).blk) =
      { proccode := el.proccode, argumentids := el.argumentids, argumentnames := none,
        argumentdefaults := none, warp := el.warp, generateshadows := none } ∧
    definitionMutationToDom ((definitionDomToMutation b el n).blk) false =
      { proccode := el.proccode, argumentids := el.argumentids, argumentnames := some ns,
        argumentdefaults := some ds, warp := el.warp, generateshadows := none } := by
  constructor
  · have hf := updateDisplay_blk_fields
      { b with
        procCode := el.proccode,
        generateShadows := el.generateshadows,
        argumentIds := el.argumentids,
        warp := el.warp } n
    unfold callerDomToMutation callerMutationToDom
    rw [hf.1, hf.2.1, hf.2.2.2.2.1]
  · have hf := updateDisplay_blk_fields
      { b with
        procCode := el.proccode,
        warp := el.warp,
        argumentIds := el.argumentids,
        displayNames := el.argumentnames.getD [],
        argumentDefaults := el.argumentdefaults.getD [] } n
    unfold definitionDomToMutation definitionMutationToDom
    rw [hf.1, hf.2.1, hf.2.2.1, hf.2.2.2.1, hf.2.2.2.2.1]
    rw [show ({ b with
        procCode := el.proccode,
        warp := el.warp,
        argumentIds := el.argumentids,
        displayNames := el.argumentnames.getD [],
        argumentDefaults := el.argumentdefaults.getD [] } : PBlock).displayNames =
      el.argumentnames.getD [] from rfl]
    rw [hns, hds]
    rfl

/-- C9 witness: a concrete caller record and a concrete definition record
round-trip their serialized fields. -/
theorem spec_c9_witness :
    (let el : MutationElement :=
      { proccode := "jump %n high", argumentids := ["i1"], argumentnames := some ["h"],
        argumentdefaults := some ["1"], warp := true, generateshadows := none }
    let b0 : PBlock :=
      { role := Role.call, procCode := "", argumentIds := [], displayNames := [],
        argumentDefaults := [], warp := false, generateShadows := none, inputs := [] }
    callerMutationToDom ((callerDomToMutation b0 el 0).blk) =
      { proccode := "jump %n high", argumentids := ["i1"], argumentnames := none,
        argumentdefaults := none, warp := true, generateshadows := none } ∧
    definitionMutationToDom ((definitionDomToMutation b0 el 0).blk) false =
      { proccode := "jump %n high", argumentids := ["i1"], argumentnames := some ["h"],
        argumentdefaults := some ["1"], warp := true, generateshadows := none }) :=
  spec_c9_theorem
    { role := Role.call, procCode := "", argumentIds := [], displayNames := [],
      argumentDefaults := [], warp := false, generateShadows := none, inputs := [] }
    { proccode := "jump %n high", argumentids := ["i1"], argumentnames := some ["h"],
      argumentdefaults := some ["1"], warp := true, generateshadows := none }
    0 ["h"] ["1"] rfl rfl

/-- C9 counterexample: a persisted caller record carrying
generateshadows="true" does not round-trip byte-equivalently — the saved
mutation omits the generateshadows attribute. -/
theorem spec_c9_counterexample :
    (let el : MutationElement :=
      { proccode := "do it", argumentids := [], argumentnames := none,
        argumentdefaults := none, warp := false, generateshadows := some true }
    let b0 : PBlock :=
      { role := Role.call, procCode := "", argumentIds := [], displayNames := [],
        argumentDefaults := [], warp := false, generateShadows := none, inputs := [] }
    callerMutationToDom ((callerDomToMutation b0 el 0).blk) ≠ el) := by
  decide

/- ---------- Claim C8 ---------- -/

theorem comp_arg_shape (comp : List Char) (hhead : comp.head? = some '%')
    (hvc : compValid comp = true) :
    ∃ t ctl, comp = '%' :: t :: ctl ∧ (t = 'n' ∨ t = 'b' ∨ t = 's') := by
  cases comp with
  | nil => simp at hhead
  | cons c0 ctl0 =>
    have hc0 : c0 = '%' := by simpa using hhead
    subst hc0
    cases ctl0 with
    | nil => simp [compValid] at hvc
    | cons t ctl =>
      refine ⟨t, ctl, rfl, ?_⟩
      unfold compValid at hvc
      rcases Bool.or_eq_true .. ▸ hvc with h | h
      · rcases Bool.or_eq_true .. ▸ h with h | h
        · exact Or.inl (by simpa using h)
        · exact Or.inr (Or.inl (by simpa using h))
      · exact Or.inr (Or.inr (by simpa using h))

theorem buildLoop_err_none (role : Role) (gs : Option Bool) (ids names : List String) :
    ∀ (comps : List (List Char)) (st : BuildState), comps.all compValid = true →
      (buildLoop role gs ids names comps st).2 = none := by
  intro comps
  induction comps with
  | nil => intro st _; rfl
  | cons comp rest ih =>
    intro st hall
    rw [List.all_cons, Bool.and_eq_true] at hall
    by_cases hhead : comp.head? = some '%'
    · obtain ⟨t, ctl, hcomp, ht⟩ := comp_arg_shape comp hhead hall.1
      rw [buildLoop_cons_arg role gs ids names comp rest st t hhead (by rw [hcomp]; simp) ht]
      exact ih _ hall.2
    · rw [buildLoop_cons_label role gs ids names comp rest st hhead]
      exact ih _ hall.2

theorem createAllInputs_err_none (role : Role) (gs : Option Bool) (pc : String)
    (ids names : List String) (cm : ConnectionMap) (n : Nat)
    (hvalid : procCodeValid pc = true) :
    (createAllInputs role gs pc ids names cm n).2 = none :=
  buildLoop_err_none role gs ids names (components pc) _ hvalid

theorem updateDisplay_err_none (b : PBlock) (n : Nat)
    (hvalid : procCodeValid b.procCode = true) :
    (updateDisplay b n).error = none := by
  simp only [updateDisplay]
  rw [createAllInputs_err_none b.role b.generateShadows b.procCode b.argumentIds
    b.displayNames (disconnectOldBlocks b.inputs) n hvalid]

theorem domToMutationM_err_none (b : PBlock) (el : MutationElement) (n : Nat)
    (hvalid : procCodeValid el.proccode = true) :
    (domToMutationM b el n).error = none := by
  cases hrole : b.role with
  | call =>
    simp only [domToMutationM, hrole, callerDomToMutation]
    exact updateDisplay_err_none _ n hvalid
  | proto =>
    simp only [domToMutationM, hrole, definitionDomToMutation]
    exact updateDisplay_err_none _ n hvalid
  | decl =>
    simp only [domToMutationM, hrole, definitionDomToMutation]
    exact updateDisplay_err_none _ n hvalid

/-- The notification condition of one loop iteration: the serialized
mutation differs before and after exactly when `mutationChanged` holds. -/
theorem fired_eq (b : PBlock) (el : MutationElement) (n : Nat) :
    decide (mutationToDomM b ≠ mutationToDomM (domToMutationM b el n).blk) =
      mutationChanged b el := by
  cases hrole : b.role with
  | call =>
    have hf := updateDisplay_blk_fields
      { b with
        procCode := el.proccode,
        generateShadows := el.generateshadows,
        argumentIds := el.argumentids,
        warp := el.warp } n
    rw [hrole] at hf
    have hL : mutationToDomM b =
        { proccode := b.procCode, argumentids := b.argumentIds, argumentnames := none,
          argumentdefaults := none, warp := b.warp, generateshadows := none } := by
      simp only [mutationToDomM, hrole, callerMutationToDom]
    have hrole2 : (domToMutationM b el n).blk.role = Role.call := by
      simp only [domToMutationM, hrole, callerDomToMutation]
      rw [hf.2.2.2.2.2.2]
    have hR : mutationToDomM (domToMutationM b el n).blk =
        { proccode := el.proccode, argumentids := el.argumentids, argumentnames := none,
          argumentdefaults := none, warp := el.warp, generateshadows := none } := by
      rw [show mutationToDomM (domToMutationM b el n).blk =
          callerMutationToDom (domToMutationM b el n).blk from by
        unfold mutationToDomM
        rw [hrole2]]
      unfold callerMutationToDom
      simp only [domToMutationM, hrole, callerDomToMutation]
      rw [hf.1, hf.2.1, hf.2.2.2.2.1]
    rw [hL, hR]
    simp only [mutationChanged, hrole]
    rw [Bool.eq_iff_iff]
    (simp [MutationElement.mk.injEq]; tauto)
  | proto =>
    have hf := updateDisplay_blk_fields
      { b with
        procCode := el.proccode,
        warp := el.warp,
        argumentIds := el.argumentids,
        displayNames := el.argumentnames.getD [],
        argumentDefaults := el.argumentdefaults.getD [] } n
    rw [hrole] at hf
    have hL : mutationToDomM b =
        { proccode := b.procCode, argumentids := b.argumentIds,
          argumentnames := some b.displayNames,
          argumentdefaults := some b.argumentDefaults, warp := b.warp,
          generateshadows := none } := by
      simp only [mutationToDomM, hrole, definitionMutationToDom]
      rfl
    have hrole2 : (domToMutationM b el n).blk.role = Role.proto := by
      simp only [domToMutationM, hrole, definitionDomToMutation]
      rw [hf.2.2.2.2.2.2]
    have hR : mutationToDomM (domToMutationM b el n).blk =
        { proccode := el.proccode, argumentids := el.argumentids,
          argumentnames := some (el.argumentnames.getD []),
          argumentdefaults := some (el.argumentdefaults.getD []), warp := el.warp,
          generateshadows := none } := by
      rw [show mutationToDomM (domToMutationM b el n).blk =
          definitionMutationToDom (domToMutationM b el n).blk false from by
        unfold mutationToDomM
        rw [hrole2]]
      unfold definitionMutationToDom
      simp only [domToMutationM, hrole, definitionDomToMutation]
      rw [hf.1, hf.2.1, hf.2.2.1, hf.2.2.2.1, hf.2.2.2.2.1]
      rfl
    rw [hL, hR]
    simp only [mutationChanged, hrole]
    rw [Bool.eq_iff_iff]
    (simp [MutationElement.mk.injEq]; tauto)
  | decl =>
    have hf := updateDisplay_blk_fields
      { b with
        procCode := el.proccode,
        warp := el.warp,
        argumentIds := el.argumentids,
        displayNames := el.argumentnames.getD [],
        argumentDefaults := el.argumentdefaults.getD [] } n
    rw [hrole] at hf
    have hL : mutationToDomM b =
        { proccode := b.procCode, argumentids := b.argumentIds,
          argumentnames := some b.displayNames,
          argumentdefaults := some b.argumentDefaults, warp := b.warp,
          generateshadows := none } := by
      simp only [mutationToDomM, hrole, definitionMutationToDom]
      rfl
    have hrole2 : (domToMutationM b el n).blk.role = Role.decl := by
      simp only [domToMutationM, hrole, definitionDomToMutation]
      rw [hf.2.2.2.2.2.2]
    have hR : mutationToDomM (domToMutationM b el n).blk =
        { proccode := el.proccode, argumentids := el.argumentids,
          argumentnames := some (el.argumentnames.getD []),
          argumentdefaults := some (el.argumentdefaults.getD []), warp := el.warp,
          generateshadows := none } := by
      rw [show mutationToDomM (domToMutationM b el n).blk =
          definitionMutationToDom (domToMutationM b el n).blk false from by
        unfold mutationToDomM
        rw [hrole2]]
      unfold definitionMutationToDom
      simp only [domToMutationM, hrole, definitionDomToMutation]
      rw [hf.1, hf.2.1, hf.2.2.1, hf.2.2.2.1, hf.2.2.2.2.1]
      rfl
    rw [hL, hR]
    simp only [mutationChanged, hrole]
    rw [Bool.eq_iff_iff]
    (simp [MutationElement.mk.injEq]; tauto)

/-- C8: during cross-site propagation of an edited signature (with a
parseable new procCode), no error occurs and a mutation-change notification
is emitted for a given caller (or the prototype) if and only if that
block's serialized mutation differs after applying the new mutation —
i.e. exactly when the serialized fields (proccode, argument ids, warp, and
for the prototype also names and defaults) change; callers whose mutation
is unchanged produce no notification. -/
theorem spec_c8_theorem (blocks : List PBlock) (el : MutationElement) (n : Nat)
    (hvalid : procCodeValid el.proccode = true) :
    (mutateCallersAndPrototype blocks el n).2.1 = none ∧
    (mutateCallersAndPrototype blocks el n).1.map (fun p => p.2) =
      blocks.map (fun b => mutationChanged b el) := by
  induction blocks generalizing n with
  | nil => exact ⟨rfl, rfl⟩
  | cons b rest ih =>
    simp only [mutateCallersAndPrototype]
    rw [domToMutationM_err_none b el n hvalid]
    have hih := ih (domToMutationM b el n).nextId
    refine ⟨hih.1, ?_⟩
    simp only [List.map_cons]
    rw [fired_eq b el n, hih.2]

/-- C8 witness: three affected blocks — a caller already carrying the new
mutation fields (no notification), a stale caller (notification), and the
prototype with a changed display name (notification). -/
theorem spec_c8_witness :
    (let el : MutationElement :=
      { proccode := "go %s", argumentids := ["i"], argumentnames := some ["x"],
        argumentdefaults := some [""], warp := false, generateshadows := none }
    let bs : List PBlock :=
      [{ role := Role.call, procCode := "go %s", argumentIds := ["i"], displayNames := [],
         argumentDefaults := [], warp := false, generateShadows := none, inputs := [] },
       { role := Role.call, procCode := "old", argumentIds := [], displayNames := [],
         argumentDefaults := [], warp := false, generateShadows := none, inputs := [] },
       { role := Role.proto, procCode := "go %s", argumentIds := ["i"],
         displayNames := ["y"], argumentDefaults := [""], warp := false,
         generateShadows := none, inputs := [] }]
    (mutateCallersAndPrototype bs el 0).2.1 = none ∧
    (mutateCallersAndPrototype bs el 0).1.map (fun p => p.2) =
      bs.map (fun b => mutationChanged b el) ∧
    bs.map (fun b => mutationChanged b el) = [false, true, true]) := by
  refine ⟨?_, ?_, by decide⟩
  · exact (spec_c8_theorem _ _ 0 (by decide)).1
  · exact (spec_c8_theorem _ _ 0 (by decide)).2

/- ---------- C7 / C10: rename-propagation lemmas ---------- -/

theorem takeTruthy_eq_self (l : List String) (h : "" ∉ l) : takeTruthy l = l := by
  induction l with
  | nil => rfl
  | cons x r ih =>
    have hx : x ≠ "" := fun hx => h (by rw [← hx]; exact List.mem_cons_self x r)
    show (if x = "" then [] else x :: takeTruthy r) = x :: r
    rw [if_neg hx, ih (fun hm => h (List.mem_cons_of_mem x hm))]

theorem jsIndexOf_eq_none (l : List String) (a : String) (h : a ∉ l) :
    jsIndexOf l a = none := by
  induction l with
  | nil => rfl
  | cons x r ih =>
    have hx : x ≠ a := fun hx => h (by rw [← hx]; exact List.mem_cons_self x r)
    show (if x = a then some 0 else (jsIndexOf r a).map (fun n => n + 1)) = none
    rw [if_neg hx, ih (fun hm => h (List.mem_cons_of_mem x hm))]
    rfl

theorem jsIndexOf_nodup_getD (l : List String) (hnd : l.Nodup) (i : Nat)
    (hi : i < l.length) : jsIndexOf l (l.getD i "") = some i := by
  induction l generalizing i with
  | nil => exact absurd hi (by simp)
  | cons x r ih =>
    match i with
    | 0 =>
      show (if x = x then some 0 else (jsIndexOf r x).map (fun n => n + 1)) = some 0
      rw [if_pos rfl]
    | k + 1 =>
      have hk : k < r.length := by simpa using hi
      have hmem : r.getD k "" ∈ r := by
        rw [List.getD_eq_getElem r "" hk]
        exact List.getElem_mem hk
      have hx : x ≠ r.getD k "" :=
        fun hx => (List.nodup_cons.mp hnd).1 (by rw [hx]; exact hmem)
      show (if x = (x :: r).getD (k + 1) "" then some 0
            else (jsIndexOf r ((x :: r).getD (k + 1) "")).map (fun n => n + 1)) = some (k + 1)
      rw [List.getD_cons_succ, if_neg hx, ih (List.nodup_cons.mp hnd).2 k hk]
      rfl

theorem buildNameChanges_stable (prevArgIds extra prevNames names : List String)
    (hne : "" ∉ prevArgIds ++ extra)
    (hnd : prevArgIds.Nodup)
    (hext : ∀ e ∈ extra, e ∉ prevArgIds)
    (hlen : prevNames.length = prevArgIds.length) :
    buildNameChanges (prevArgIds ++ extra) names prevArgIds prevNames =
      (List.range prevArgIds.length).filterMap (fun i =>
        if prevNames.getD i "" ≠ names.getD i "" then
          some (prevNames.getD i "", names.getD i "") else none) := by
  simp only [buildNameChanges, takeTruthy_eq_self _ hne]
  rw [List.length_append, List.range_add, List.filterMap_append, List.filterMap_map]
  refine (congrArg₂ (· ++ ·) ?_ ?_).trans (List.append_nil _)
  · refine List.filterMap_congr ?_
    intro i hi
    rw [List.mem_range] at hi
    have hi2 : i < prevNames.length := by rw [hlen]; exact hi
    rw [List.getD_append _ _ _ _ hi, jsIndexOf_nodup_getD prevArgIds hnd i hi]
    show (match prevNames[i]? with
      | some prevName =>
        if prevName ≠ names.getD i "" then some (prevName, names.getD i "") else none
      | none => none) = _
    rw [List.getElem?_eq_getElem hi2]
    show (if prevNames[i] ≠ names.getD i "" then some (prevNames[i], names.getD i "")
          else none) = _
    rw [← List.getD_eq_getElem prevNames "" hi2]
  · rw [List.filterMap_eq_nil_iff]
    intro j hj
    rw [List.mem_range] at hj
    show (match jsIndexOf prevArgIds
          ((prevArgIds ++ extra).getD (prevArgIds.length + j) "") with
      | some prevIndex =>
        match prevNames[prevIndex]? with
        | some prevName =>
          if prevName ≠ names.getD (prevArgIds.length + j) "" then
            some (prevName, names.getD (prevArgIds.length + j) "")
          else none
        | none => none
      | none => none) = none
    rw [List.getD_append_right _ _ _ _ (Nat.le_add_right _ _), Nat.add_sub_cancel_left]
    have hmem : extra.getD j "" ∈ extra := by
      rw [List.getD_eq_getElem extra "" hj]
      exact List.getElem_mem hj
    rw [jsIndexOf_eq_none prevArgIds _ (hext _ hmem)]

theorem renameFold_no_match (changes : List (String × String)) (v acc : String)
    (h : ∀ pr ∈ changes, pr.1 ≠ v) :
    changes.foldl (fun cur pr => if v = pr.1 then pr.2 else cur) acc = acc := by
  induction changes generalizing acc with
  | nil => rfl
  | cons pr rest ih =>
    rw [List.foldl_cons, if_neg (fun hv => h pr (List.mem_cons_self _ _) hv.symm)]
    exact ih acc (fun q hq => h q (List.mem_cons_of_mem _ hq))

theorem renameFold_unique (changes : List (String × String)) (v w : String) :
    ∀ acc, (∃ pr ∈ changes, pr.1 = v) → (∀ pr ∈ changes, pr.1 = v → pr.2 = w) →
      changes.foldl (fun cur pr => if v = pr.1 then pr.2 else cur) acc = w := by
  induction changes with
  | nil =>
    intro acc hmem _
    obtain ⟨pr, hpr, _⟩ := hmem
    exact absurd hpr (List.not_mem_nil pr)
  | cons pr rest ih =>
    intro acc hmem huniq
    rw [List.foldl_cons]
    by_cases hv : v = pr.1
    · have hw : pr.2 = w := huniq pr (List.mem_cons_self _ _) hv.symm
      rw [if_pos hv, hw]
      by_cases hr : ∃ q ∈ rest, q.1 = v
      · exact ih w hr (fun q hq hqv => huniq q (List.mem_cons_of_mem _ hq) hqv)
      · exact renameFold_no_match rest v w (fun q hq hqv => hr ⟨q, hq, hqv⟩)
    · rw [if_neg hv]
      obtain ⟨q, hq, hqv⟩ := hmem
      rcases List.mem_cons.mp hq with hq1 | hq2
      · exact absurd (hq1 ▸ hqv) (fun h => hv h.symm)
      · exact ih acc ⟨q, hq2, hqv⟩
          (fun q2 hq2b hqv2 => huniq q2 (List.mem_cons_of_mem _ hq2b) hqv2)

theorem applyRename_eq_renameSpec (prevNames names : List String)
    (hnd : prevNames.Nodup) (v : String) :
    applyRename ((List.range prevNames.length).filterMap (fun i =>
        if prevNames.getD i "" ≠ names.getD i "" then
          some (prevNames.getD i "", names.getD i "") else none)) v
      = renameSpec prevNames names v := by
  cases hfind : (List.range prevNames.length).find? (fun i =>
      (prevNames.getD i "" == v) && !(names.getD i "" == prevNames.getD i "")) with
  | none =>
    have hrs : renameSpec prevNames names v = v := by
      unfold renameSpec
      rw [hfind]
    rw [hrs]
    unfold applyRename
    refine renameFold_no_match _ v v ?_
    intro pr hpr
    rw [List.mem_filterMap] at hpr
    obtain ⟨i, hi, hif⟩ := hpr
    by_cases hne2 : prevNames.getD i "" ≠ names.getD i ""
    · rw [if_pos hne2] at hif
      have hpr1 : pr.1 = prevNames.getD i "" := by
        rw [← Option.some_inj.mp hif]
      intro hprv
      refine List.find?_eq_none.mp hfind i hi ?_
      rw [Bool.and_eq_true]
      constructor
      · rw [beq_iff_eq, ← hpr1]
        exact hprv
      · rw [Bool.not_eq_true', beq_eq_false_iff_ne]
        exact fun he => hne2 he.symm
    · rw [if_neg hne2] at hif
      simp at hif
  | some i =>
    have hrs : renameSpec prevNames names v = names.getD i "" := by
      unfold renameSpec
      rw [hfind]
    rw [hrs]
    have hpred := List.find?_some hfind
    have hmemi := List.mem_of_find?_eq_some hfind
    rw [List.mem_range] at hmemi
    rw [Bool.and_eq_true, beq_iff_eq, Bool.not_eq_true', beq_eq_false_iff_ne] at hpred
    obtain ⟨hpv, hnp⟩ := hpred
    unfold applyRename
    refine renameFold_unique _ v (names.getD i "") v ?_ ?_
    · exact ⟨(prevNames.getD i "", names.getD i ""),
        List.mem_filterMap.mpr ⟨i, List.mem_range.mpr hmemi,
          by rw [if_pos (fun he => hnp he.symm)]⟩,
        hpv⟩
    · intro q hq hqv
      rw [List.mem_filterMap] at hq
      obtain ⟨j, hj, hjf⟩ := hq
      rw [List.mem_range] at hj
      by_cases hne2 : prevNames.getD j "" ≠ names.getD j ""
      · rw [if_pos hne2] at hjf
        have hq2 := Option.some_inj.mp hjf
        cases hq2
        have hij : j = i := by
          have h1 : prevNames[j] = prevNames[i] := by
            rw [← List.getD_eq_getElem prevNames "" hj,
              ← List.getD_eq_getElem prevNames "" hmemi, hpv]
            exact hqv
          exact (List.Nodup.getElem_inj_iff hnd).mp h1
        rw [hij]
      · rw [if_neg hne2] at hjf
        simp at hjf

/-- C7: for a mutation with stable slot IDs (possibly followed by newly added
IDs) and well-formed argument data (distinct non-empty slot IDs, distinct
previous display names, name list aligned with the previous ID list), the
rename pass relabels exactly the non-shadow argument-reporter blocks among
the definition's descendants whose label equals a changed old display name,
to the corresponding new display name (`renameSpec` states the spec text);
every other descendant block, every block outside the definition's stack,
and every slot ID absent from the previous ID list trigger or undergo no
rename. -/
theorem spec_c7_theorem (prevArgIds extra prevNames names : List String)
    (descendants others : List SBlock)
    (hne : "" ∉ prevArgIds ++ extra)
    (hnd : prevArgIds.Nodup)
    (hext : ∀ e ∈ extra, e ∉ prevArgIds)
    (hlen : prevNames.length = prevArgIds.length)
    (hndn : prevNames.Nodup) :
    propagateRenames (prevArgIds ++ extra) names prevArgIds prevNames descendants others =
      (descendants.map (fun b =>
        if candidateReporter b then
          { b with fieldVal := renameSpec prevNames names b.fieldVal } else b),
       others) := by
  simp only [propagateRenames, updateArgumentReporterNames,
    buildNameChanges_stable prevArgIds extra prevNames names hne hnd hext hlen]
  refine congrArg₂ Prod.mk ?_ rfl
  refine List.map_congr_left ?_
  intro b _
  by_cases hc : candidateReporter b
  · rw [if_pos hc, if_pos hc, ← hlen, applyRename_eq_renameSpec prevNames names hndn]
  · rw [if_neg hc, if_neg hc]

/-- C7 witness: slot id1 keeps its id but is renamed foo→baz, id2 keeps name
bar, id3 is newly added; the non-shadow string reporter labelled foo inside
the definition is relabelled to baz, the boolean reporter labelled bar and a
non-reporter block are untouched, and a reporter outside the definition's
stack is untouched. -/
theorem spec_c7_witness :
    propagateRenames (["id1", "id2"] ++ ["id3"]) ["baz", "bar", "qux"]
        ["id1", "id2"] ["foo", "bar"]
        [⟨1, "argument_reporter_string_number", false, "foo"⟩,
         ⟨2, "argument_reporter_boolean", false, "bar"⟩,
         ⟨3, "math_number", false, "foo"⟩]
        [⟨4, "argument_reporter_string_number", false, "foo"⟩] =
      ([⟨1, "argument_reporter_string_number", false, "baz"⟩,
        ⟨2, "argument_reporter_boolean", false, "bar"⟩,
        ⟨3, "math_number", false, "foo"⟩],
       [⟨4, "argument_reporter_string_number", false, "foo"⟩]) := by
  have h := spec_c7_theorem ["id1", "id2"] ["id3"] ["foo", "bar"] ["baz", "bar", "qux"]
      [⟨1, "argument_reporter_string_number", false, "foo"⟩,
       ⟨2, "argument_reporter_boolean", false, "bar"⟩,
       ⟨3, "math_number", false, "foo"⟩]
      [⟨4, "argument_reporter_string_number", false, "foo"⟩]
      (by decide) (by decide) (by decide) (by decide) (by decide)
  rw [h]
  rfl

theorem renameFold_cases (changes : List (String × String)) (v : String) :
    ∀ acc, changes.foldl (fun cur pr => if v = pr.1 then pr.2 else cur) acc = acc ∨
      ∃ pr ∈ changes, pr.1 = v ∧
        changes.foldl (fun cur pr => if v = pr.1 then pr.2 else cur) acc = pr.2 := by
  induction changes with
  | nil => exact fun acc => Or.inl rfl
  | cons pr rest ih =>
    intro acc
    rw [List.foldl_cons]
    by_cases hv : v = pr.1
    · rw [if_pos hv]
      rcases ih pr.2 with h | ⟨q, hq, hqv, hqe⟩
      · exact Or.inr ⟨pr, List.mem_cons_self _ _, hv.symm, h⟩
      · exact Or.inr ⟨q, List.mem_cons_of_mem _ hq, hqv, hqe⟩
    · rw [if_neg hv]
      rcases ih acc with h | ⟨q, hq, hqv, hqe⟩
      · exact Or.inl h
      · exact Or.inr ⟨q, List.mem_cons_of_mem _ hq, hqv, hqe⟩

theorem renameSpec_swap (A B v : String) (hAB : A ≠ B) :
    renameSpec [A, B] [B, A] v = if v = A then B else if v = B then A else v := by
  unfold renameSpec
  rw [show List.range ([A, B] : List String).length = [0, 1] from rfl]
  by_cases hvA : v = A
  · rw [List.find?_cons_of_pos _ (by simp [hvA, Ne.symm hAB]), if_pos hvA]
    rfl
  · rw [List.find?_cons_of_neg _ (by simp [show A ≠ v from fun h => hvA h.symm])]
    by_cases hvB : v = B
    · rw [List.find?_cons_of_pos _ (by simp [hvB, hAB]), if_neg hvA, if_pos hvB]
      rfl
    · rw [List.find?_cons_of_neg _ (by simp [show B ≠ v from fun h => hvB h.symm]),
        List.find?_nil, if_neg hvA, if_neg hvB]

theorem applyRename_swap (A B v : String) :
    applyRename [(A, B), (B, A)] v =
      if v = B then A else if v = A then B else v := by
  unfold applyRename
  rw [List.foldl_cons, List.foldl_cons, List.foldl_nil]

/-- C10: rename propagation applies all of one edit's renames simultaneously
against the pre-edit names. First conjunct (at-most-one rename, no chaining):
for any mutation, a reporter label is either left unchanged or set to the new
name of a single name-change pair whose old name equals the label's original
value. Second conjunct (swap): when one edit exchanges the display names of
two arguments (stable distinct non-empty IDs, names A and B swapped), every
candidate reporter labelled A ends labelled B and vice versa — never renamed
back through a chain. -/
theorem spec_c10_theorem :
    (∀ (argIds names prevArgIds prevNames : List String) (v : String),
      applyRename (buildNameChanges argIds names prevArgIds prevNames) v = v ∨
      ∃ pr ∈ buildNameChanges argIds names prevArgIds prevNames,
        pr.1 = v ∧ applyRename (buildNameChanges argIds names prevArgIds prevNames) v = pr.2) ∧
    (∀ (i1 i2 A B : String) (descendants : List SBlock),
      i1 ≠ "" → i2 ≠ "" → i1 ≠ i2 → A ≠ B →
      updateArgumentReporterNames [i1, i2] [B, A] [i1, i2] [A, B] descendants =
        descendants.map (fun b =>
          if candidateReporter b then
            { b with fieldVal :=
              if b.fieldVal = A then B else if b.fieldVal = B then A else b.fieldVal }
          else b)) := by
  constructor
  · intro argIds names prevArgIds prevNames v
    unfold applyRename
    exact renameFold_cases (buildNameChanges argIds names prevArgIds prevNames) v v
  · intro i1 i2 A B descendants h1 h2 h12 hAB
    have hne0 : ("" : String) ∉ [i1, i2] := by
      intro hm
      rcases List.mem_cons.mp hm with he | hm2
      · exact h1 he.symm
      · rcases List.mem_cons.mp hm2 with he | h3
        · exact h2 he.symm
        · exact List.not_mem_nil _ h3
    have hne : ("" : String) ∉ [i1, i2] ++ ([] : List String) := by
      rw [List.append_nil]
      exact hne0
    have hnd : ([i1, i2] : List String).Nodup := by simp [h12]
    have hext : ∀ e ∈ ([] : List String), e ∉ ([i1, i2] : List String) :=
      fun e he => absurd he (List.not_mem_nil e)
    have hlen : ([A, B] : List String).length = ([i1, i2] : List String).length := rfl
    have hsp := buildNameChanges_stable [i1, i2] [] [A, B] [B, A] hne hnd hext hlen
    rw [List.append_nil] at hsp
    rw [show ([i1, i2] : List String).length = ([A, B] : List String).length from rfl] at hsp
    have hndn : ([A, B] : List String).Nodup := by simp [hAB]
    simp only [updateArgumentReporterNames, hsp]
    refine List.map_congr_left ?_
    intro b _
    by_cases hc : candidateReporter b
    · rw [if_pos hc, if_pos hc, applyRename_eq_renameSpec [A, B] [B, A] hndn,
        renameSpec_swap A B b.fieldVal hAB]
    · rw [if_neg hc, if_neg hc]

/-- C10 witness: swapping the names foo and bar of two arguments relabels the
non-shadow string reporter foo to bar and the non-shadow boolean reporter bar
to foo in one step, while a shadow reporter is untouched. -/
theorem spec_c10_witness :
    updateArgumentReporterNames ["a1", "a2"] ["bar", "foo"] ["a1", "a2"] ["foo", "bar"]
        [⟨1, "argument_reporter_string_number", false, "foo"⟩,
         ⟨2, "argument_reporter_boolean", false, "bar"⟩,
         ⟨3, "argument_reporter_string_number", true, "foo"⟩] =
      [⟨1, "argument_reporter_string_number", false, "bar"⟩,
       ⟨2, "argument_reporter_boolean", false, "foo"⟩,
       ⟨3, "argument_reporter_string_number", true, "foo"⟩] := by
  have h := (spec_c10_theorem).2 "a1" "a2" "foo" "bar"
      [⟨1, "argument_reporter_string_number", false, "foo"⟩,
       ⟨2, "argument_reporter_boolean", false, "bar"⟩,
       ⟨3, "argument_reporter_string_number", true, "foo"⟩]
      (by decide) (by decide) (by decide) (by decide)
  rw [h]
  rfl

end ScratchBlocks
